import Mathlib

/-!
# Verification of SimpleParsing's parser derivation and reconstruction

Shallow embedding of `simple_parsing/parsing.py` and
`simple_parsing/wrappers/dataclass_wrapper.py`.

Python runtime values are modelled by `PyVal`; Python exceptions by
`Except PErr`.  Each definition mirrors one function (or one branch
structure) of the source, with comments pointing at the source lines.
-/

/-- A Python runtime value, as far as the parsing code distinguishes them:
`None`, booleans, integers, strings, enum members (index into the member
list of the field's enum type), lists, tuples, dicts with string keys,
and objects with named attributes (dataclass instances). -/
inductive PyVal where
  | noneV
  | boolV (b : Bool)
  | intV (n : Int)
  | strV (s : String)
  | enumMember (idx : Nat)
  | listV (xs : List PyVal)
  | tupleV (xs : List PyVal)
  | dictV (kvs : List (String × PyVal))
  | objV (attrs : List (String × PyVal))

/-- The Python exceptions raised by the embedded code. -/
inductive PErr where
  | inconsistentArgument (msg : String)   -- InconsistentArgumentError (parsing.py:18)
  | argumentType (msg : String)           -- argparse.ArgumentTypeError (parsing.py:151)
  | keyErr (key : String)                 -- Python KeyError
  | typeErr (msg : String)                -- Python TypeError
  | notImplemented (msg : String)         -- NotImplementedError (dataclass_wrapper.py:120)
  | attributeErr (msg : String)           -- Python AttributeError
  | runtimeUnknown (sortedUnknown : List String) (wrapperName : String)
      -- RuntimeError (dataclass_wrapper.py:314); carries the sorted unknown
      -- names interpolated into the message together with the wrapper's name
  | recursionLimit                        -- models Python's recursion limit

/-- Python truthiness, used by `not default_value` (parsing.py:147) when the
stored default is not a boolean. -/
def pyTruthy : PyVal → Bool
  | .noneV => false
  | .boolV b => b
  | .intV n => decide (n ≠ 0)
  | .strV s => decide (s ≠ "")
  | .enumMember _ => true
  | .listV xs => !xs.isEmpty
  | .tupleV xs => !xs.isEmpty
  | .dictV kvs => !kvs.isEmpty
  | .objV _ => true

/-- Python iteration, used by the `tuple(...)`/`list(...)` coercions at
parsing.py:137 and parsing.py:140.  Iterating a string yields its
characters, iterating a dict yields its keys; `None`, booleans, integers
and dataclass instances are not iterable. -/
def pyIterate : PyVal → Except PErr (List PyVal)
  | .listV xs => .ok xs
  | .tupleV xs => .ok xs
  | .strV s => .ok (s.toList.map (fun ch => PyVal.strV (String.singleton ch)))
  | .dictV kvs => .ok (kvs.map (fun p => PyVal.strV p.1))
  | _ => .error (.typeErr "object is not iterable")

/-- A `for`-loop that builds a list and propagates the first raised
exception, used to model Python loops over fields/instances. -/
def mapE (h : α → Except PErr β) : List α → Except PErr (List β)
  | [] => .ok []
  | a :: as => do
    let b ← h a
    let bs ← mapE h as
    .ok (b :: bs)

/-- A flat `argparse.Namespace` / flat name-to-value mapping. -/
abbrev NS := List (String × PyVal)

/-- Attribute read on a namespace (`args_dict[name]` semantics: first and
only binding of the key). -/
def nsGet : NS → String → Option PyVal
  | [], _ => Option.none
  | (k', v) :: rest, k => if k' == k then some v else nsGet rest k

/-- `setattr(namespace, k, v)`: replace the binding of `k` (or append it). -/
def nsSet (ns : NS) (k : String) (v : PyVal) : NS :=
  match ns with
  | [] => [(k, v)]
  | (k', v') :: rest => if k' == k then (k, v) :: rest else (k', v') :: nsSet rest k v

/-- Python dict lookup on an association list (keys are unique in a dict,
so first match is the binding). -/
def lookupKV : List (String × PyVal) → String → Option PyVal
  | [], _ => Option.none
  | (k', v) :: rest, k => if k' == k then some v else lookupKV rest k

/-- Insertion into a sorted list of strings, for modelling Python's
`sorted(...)`. -/
def insertStr (x : String) : List String → List String
  | [] => [x]
  | y :: ys => if x ≤ y then x :: y :: ys else y :: insertStr x ys

/-- Python's `sorted(...)` on a collection of strings. -/
def sortStrings : List String → List String
  | [] => []
  | x :: xs => insertStr x (sortStrings xs)

/-! ## Embedding of `simple_parsing/parsing.py` -/

/-- A Python `enum.Enum` type: its ordered member names and member values.
The code only ever uses the names (`e.name` at parsing.py:90 and
`f.type[...]` at parsing.py:134); the values are carried to make it
meaningful that choices are names and *not* values. -/
structure PyEnum where
  memberNames : List String
  memberValues : List PyVal := []

/-- The classification of a field's declared type, following the branch
structure of `_add_arguments` (parsing.py:89-123): `enum.Enum in
f.type.mro()`, then `utils.is_tuple_or_list(f.type)` (tuple and list
annotations; the classifier itself lives in `utils`, which mirrors spec
section 4.2), then `f.type is bool`, else a plain scalar type. -/
inductive FieldKind where
  | enum (e : PyEnum)
  | tupleOf
  | listOf
  | boolean
  | scalar

/-- A `dataclasses.Field` as consumed by parsing.py: its name, declared
type classification, declared default (`f.default`, `none` when
`dataclasses.MISSING`), and declared default factory result
(`f.default_factory()`, `none` when `dataclasses.MISSING`). -/
structure PField where
  name : String
  type : FieldKind
  default : Option PyVal := Option.none
  default_factory : Option PyVal := Option.none

/-- The `nargs` strings used by parsing.py: `"*"`, `"+"`, `"?"`. -/
inductive NArgs where
  | star
  | plus
  | question
deriving DecidableEq

/-- The value of `arg_options["type"]` handed to argparse. -/
inductive ArgType where
  | declared (k : FieldKind)      -- the raw `f.type` (parsing.py:67)
  | str                           -- `str` for enums (parsing.py:91)
  | str2bool                      -- `utils.str2bool` (parsing.py:113)
  | containerItemType             -- `utils.get_argparse_container_type(f.type)` (parsing.py:101,109)
  | parseMultipleContainers       -- `utils._parse_multiple_containers(f.type)` (parsing.py:104)

/-- The option declaration: the `arg_options` dict built by
`_add_arguments` for one field (parsing.py:66-124).  `required := false`
models the key being absent from the dict (the code only reads it with
`arg_options.get("required", False)`). -/
structure ArgOptions where
  type : ArgType
  default : Option PyVal := Option.none
  required : Bool := false
  choices : Option (List String) := Option.none
  nargs : Option NArgs := Option.none

/-- `_add_arguments` body for one field (parsing.py:64-125), computing the
option declaration handed to `group.add_argument` (help text omitted:
it never affects parsing). -/
def addArgumentOptions (f : PField) (multiple : Bool) : ArgOptions :=
  -- parsing.py:66-68: arg_options = { "type": f.type }
  let opts : ArgOptions := { type := ArgType.declared f.type }
  -- parsing.py:79-84: default / default_factory / required
  let opts :=
    match f.default with
    | some d => { opts with default := some d }
    | Option.none =>
      match f.default_factory with
      | some d => { opts with default := some d }
      | Option.none => { opts with required := true }
  match f.type with
  | FieldKind.enum e =>
    -- parsing.py:89-96
    let opts := { opts with choices := some e.memberNames, type := ArgType.str }
    match opts.default with
    | some (PyVal.enumMember i) =>
      -- the default value is an Enum object: make it a string (its name)
      { opts with default := some (PyVal.strV (e.memberNames.getD i "")) }
    | _ => opts
  | FieldKind.tupleOf =>
    -- parsing.py:98-109
    let opts := { opts with nargs := some NArgs.star }
    if multiple then { opts with type := ArgType.parseMultipleContainers }
    else { opts with type := ArgType.containerItemType }
  | FieldKind.listOf =>
    let opts := { opts with nargs := some NArgs.star }
    if multiple then { opts with type := ArgType.parseMultipleContainers }
    else { opts with type := ArgType.containerItemType }
  | FieldKind.boolean =>
    -- parsing.py:111-116
    let opts := { opts with
      default := some (f.default.getD (PyVal.boolV false)),
      type := ArgType.str2bool,
      nargs := some (if multiple then NArgs.star else NArgs.question) }
    if f.default.isNone then { opts with required := true } else opts
  | FieldKind.scalar =>
    -- parsing.py:118-123
    if multiple then
      if opts.required then { opts with nargs := some NArgs.plus }
      else { opts with nargs := some NArgs.star }
    else opts

/-- The engine (argparse) interface for option lookup, per spec section 6:
when the option was supplied its parsed value ends up in the namespace,
when it was not supplied the declaration's default does. -/
def engineValue (opts : ArgOptions) (supplied : Option PyVal) : Option PyVal :=
  match supplied with
  | some v => some v
  | Option.none => opts.default

/-- First index whose element satisfies `p` (Python dict/Enum name lookup
order). -/
def findIndex (p : String → Bool) : List String → Option Nat
  | [] => Option.none
  | x :: xs => if p x then some 0 else (findIndex p xs).map (fun n => n + 1)

/-- The boolean branch of `_instantiate_dataclass` (parsing.py:142-151):
`None` means the flag was passed bare and yields the negated default,
a boolean literal is used as-is, anything else raises
`ArgumentTypeError`. -/
def instantiateBool (fieldName : String) (fieldDefault : Option PyVal) (value : PyVal) :
    Except PErr PyVal :=
  -- default_value = False if f.default is dataclasses.MISSING else f.default
  let default_value := fieldDefault.getD (PyVal.boolV false)
  match value with
  | PyVal.noneV => .ok (PyVal.boolV (! pyTruthy default_value))
  | PyVal.boolV b => .ok (PyVal.boolV b)
  | _ => .error (.argumentType ("bool argument " ++ fieldName ++ " isn't bool"))

/-- Per-field conversion performed by `_instantiate_dataclass`
(parsing.py:132-154): enum members are looked up by parsed name
(`f.type[args_dict[f.name]]`, raising `KeyError` on an unknown name),
tuple/list annotations coerce the flat parsed value into the declared
container, booleans go through `instantiateBool`, everything else passes
through unchanged. -/
def instantiateFieldValue (f : PField) (v : PyVal) : Except PErr PyVal :=
  match f.type with
  | FieldKind.enum e =>
    match v with
    | PyVal.strV s =>
      match findIndex (fun n => n == s) e.memberNames with
      | some i => .ok (PyVal.enumMember i)
      | Option.none => .error (.keyErr s)
    | _ => .error (.keyErr "enum lookup with a non-string key")
  | FieldKind.tupleOf => (pyIterate v).map PyVal.tupleV
  | FieldKind.listOf => (pyIterate v).map PyVal.listV
  | FieldKind.boolean => instantiateBool f.name f.default v
  | FieldKind.scalar => .ok v

/-- The field loop of `_instantiate_dataclass` (parsing.py:131-154),
building the constructor keyword arguments.  `args_dict[f.name]` raises
`KeyError` when the attribute is missing. -/
def constructorArgs (fields : List PField) (ns : NS) : Except PErr (List (String × PyVal)) :=
  mapE (fun f => do
    let v ← match nsGet ns f.name with
            | some v => Except.ok v
            | Option.none => Except.error (PErr.keyErr f.name)
    let cv ← instantiateFieldValue f v
    Except.ok (f.name, cv)) fields

/-- `_instantiate_dataclass` (parsing.py:127-155): resolve each field from
the namespace and construct the dataclass (modelled as an object holding
the keyword arguments). -/
def instantiateDataclass (fields : List PField) (ns : NS) : Except PErr PyVal :=
  (constructorArgs fields ns).map PyVal.objV

/-- The message of `InconsistentArgumentError` (parsing.py:181-182). -/
def inconsistentMessage (fieldName : String) (count : Nat) (numInstances : Nat) : String :=
  "The field '" ++ fieldName ++ "' contains " ++ toString count ++
    " values, but either 1 or " ++ toString numInstances ++ " values were expected."

/-- The per-field distribution step of `_instantiate_multiple_dataclasses`
(parsing.py:171-182) for instance `i` out of `numInstances`:
a non-list value is passed through unchanged (the first branch tests
`not isinstance(field_values, list)`, so tuples and every other
non-list value take it; the `isinstance(field_values, (list, tuple))`
guard of the second branch is therefore only ever reached by lists),
an empty list is passed through, a singleton list is broadcast, a list
of exactly `numInstances` values is distributed positionally, and any
other list length raises `InconsistentArgumentError`. -/
def instanceArgValue (numInstances i : Nat) (fieldName : String) (fieldValues : PyVal) :
    Except PErr PyVal :=
  match fieldValues with
  | PyVal.listV xs =>
    if xs.length = 0 then .ok (PyVal.listV xs)
    else if xs.length = 1 then .ok (xs.getD 0 PyVal.noneV)
    else if xs.length = numInstances then .ok (xs.getD i PyVal.noneV)
    else .error (.inconsistentArgument (inconsistentMessage fieldName xs.length numInstances))
  | v => .ok v

/-- Lines 163-164: collect each field's accumulated value from the parsed
namespace (`args_dict[f.name]`, `KeyError` when missing). -/
def gatherFieldValues (fields : List PField) (ns : NS) : Except PErr (List (String × PyVal)) :=
  mapE (fun f =>
    match nsGet ns f.name with
    | some v => Except.ok (f.name, v)
    | Option.none => Except.error (PErr.keyErr f.name)) fields

/-- The arguments of instance `i` (the inner loop at parsing.py:169-182). -/
def perInstance (cargs : List (String × PyVal)) (numInstances i : Nat) :
    Except PErr (List (String × PyVal)) :=
  mapE (fun p => (instanceArgValue numInstances i p.1 p.2).map (fun v => (p.1, v))) cargs

/-- The outer `for i in range(num_instances_to_parse)` loop
(parsing.py:166-183). -/
def buildPerInstance (cargs : List (String × PyVal)) (numInstances : Nat) :
    Except PErr (List (List (String × PyVal))) :=
  mapE (fun i => perInstance cargs numInstances i) (List.range numInstances)

/-- `_instantiate_multiple_dataclasses` (parsing.py:157-188): gather each
field's accumulated value, build the per-instance keyword arguments, and
construct the instances in destination order. -/
def instantiateMultipleDataclasses (fields : List PField) (ns : NS) (numInstances : Nat) :
    Except PErr (List PyVal) := do
  let cargs ← gatherFieldValues fields ns
  let argLists ← buildPerInstance cargs numInstances
  .ok (argLists.map PyVal.objV)

/-- One accumulated `add_arguments(dataclass, dest)` registration: the
dataclass's fields and the destinations requested for it
(`self._args_to_add`, parsing.py:32,54). -/
structure Registration where
  fields : List PField
  destinations : List String

/-- The `zip(dataclass_instances, destinations)` binding loop
(parsing.py:208-209). -/
def bindZip (ns : NS) (insts : List PyVal) (dests : List String) : NS :=
  match insts, dests with
  | i :: is, d :: ds => bindZip (nsSet ns d i) is ds
  | _, _ => ns

/-- The reconstruction-and-binding phase of `parse_args`
(parsing.py:202-211), starting from the engine's flat parsed namespace:
every registration with a single destination gets one instance bound at
it, every registration with several destinations gets one instance per
destination; nothing else in the namespace is touched. -/
def bindInstances : List Registration → NS → Except PErr NS
  | [], ns => .ok ns
  | r :: rest, ns =>
    if r.destinations.length = 1 then
      match instantiateDataclass r.fields ns with
      | .error e => .error e
      | .ok inst => bindInstances rest (nsSet ns (r.destinations.getD 0 "") inst)
    else
      match instantiateMultipleDataclasses r.fields ns r.destinations.length with
      | .error e => .error e
      | .ok insts => bindInstances rest (bindZip ns insts r.destinations)

/-! ## Embedding of `simple_parsing/wrappers/dataclass_wrapper.py` -/

/-- A `FieldWrapper` as far as `DataclassWrapper.set_default` and
`DataclassWrapper.merge` use it: its field name and its currently stored
default value.

Modelled from the spec: `FieldWrapper.set_default` lives in
`wrappers/field_wrapper.py`, which is not part of the analyzed sources;
per spec sections 4.3 and 4.4 it stores the supplied value as the
wrapper's default ("defaults may be mutated later via `set_default`",
"Propagates matching keys down into ... field wrappers"). -/
structure FieldW where
  name : String
  default : Option PyVal := Option.none

/-- A `DataclassWrapper` as far as `set_default` uses it: the dataclass
name (for the error message), its field wrappers (`self.fields`) and its
child wrappers (`self._children`, each created from a nested-dataclass
field and reachable by that field's name). -/
inductive DcWrapper where
  | mk (name : String) (fields : List FieldW) (children : List DcWrapper)

/-- The wrapper's name (the nested field's name, or the root destination). -/
def DcWrapper.name : DcWrapper → String
  | .mk n _ _ => n

/-- The wrapper's field wrappers (`self.fields`). -/
def DcWrapper.fields : DcWrapper → List FieldW
  | .mk _ fs _ => fs

/-- The wrapper's child wrappers (`self._children`). -/
def DcWrapper.children : DcWrapper → List DcWrapper
  | .mk _ _ cs => cs

/-- `unknown_names.remove(x)` on a Python set: raises `KeyError` when the
element is absent. -/
def setRemove (s : List String) (k : String) : Except PErr (List String) :=
  if k ∈ s then .ok (s.erase k) else .error (.keyErr k)

/-- The field-wrapper loop of `set_default`
(dataclass_wrapper.py:299-305): for every field wrapper whose name is a
key of the mapping, store that value as the wrapper's default and remove
the name from the unknown set. -/
def setFieldDefaults (fields : List FieldW) (kvs : List (String × PyVal))
    (unknown : List String) : Except PErr (List FieldW × List String) :=
  match fields with
  | [] => .ok ([], unknown)
  | fw :: rest =>
    match lookupKV kvs fw.name with
    | Option.none => do
      let (rest', u) ← setFieldDefaults rest kvs unknown
      .ok (fw :: rest', u)
    | some v => do
      let u ← setRemove unknown fw.name
      let (rest', u') ← setFieldDefaults rest kvs u
      .ok ({ fw with default := some v } :: rest', u')

/-- The child-wrapper loop of `set_default`
(dataclass_wrapper.py:306-311), parameterized by the recursive
`set_default` call on a child. -/
def setChildDefaults (setChild : DcWrapper → PyVal → Except PErr DcWrapper) :
    List DcWrapper → List (String × PyVal) → List String →
    Except PErr (List DcWrapper × List String)
  | [], _, unknown => .ok ([], unknown)
  | c :: rest, kvs, unknown =>
    match lookupKV kvs c.name with
    | Option.none => do
      let (rest', u) ← setChildDefaults setChild rest kvs unknown
      .ok (c :: rest', u)
    | some v => do
      let c' ← setChild c v
      let u ← setRemove unknown c.name
      let (rest', u') ← setChildDefaults setChild rest kvs u
      .ok (c' :: rest', u')

/-- `DataclassWrapper.set_default` (dataclass_wrapper.py:289-314), with a
recursion-depth budget making the nested recursion into child wrappers
structural.  A non-`None` non-dict value goes through
`dataclasses.asdict` (an `objV`'s attributes; anything else raises
`TypeError`); a `None` value returns immediately; for a mapping, the
keys are collected into the unknown set, matching field wrappers and
child wrappers consume their keys, the `"_type_"` key is discarded, and
any remaining unknown names raise `RuntimeError` carrying the sorted
unknown names and the wrapper's dataclass. -/
def setDefaultDW : Nat → DcWrapper → PyVal → Except PErr DcWrapper
  | 0, _, _ => .error .recursionLimit
  | fuel + 1, w, v =>
    match w with
    | .mk nm fs cs =>
      let entries? : Except PErr (Option (List (String × PyVal))) :=
        match v with
        | PyVal.noneV => .ok Option.none                -- value is None
        | PyVal.dictV kvs => .ok (some kvs)             -- already a dict
        | PyVal.objV attrs => .ok (some attrs)          -- dataclasses.asdict(value)
        | _ => .error (.typeErr "asdict() should be called on dataclass instances")
      match entries? with
      | .error e => .error e
      | .ok Option.none => .ok w                        -- early return (line 296-297)
      | .ok (some kvs) =>
        match (setFieldDefaults fs kvs ((kvs.map Prod.fst).dedup) : Except PErr _) with
        | .error e => .error e
        | .ok (fs', u1) =>
          match setChildDefaults (setDefaultDW fuel) cs kvs u1 with
          | .error e => .error e
          | .ok (cs', u2) =>
            let u3 := u2.erase "_type_"                 -- unknown_names.discard("_type_")
            if u3.isEmpty then .ok (.mk nm fs' cs')
            else .error (.runtimeUnknown (sortStrings u3) nm)

/-- The classification used by `DataclassWrapper.__init__`
(dataclass_wrapper.py:119-180) to dispatch on a field's resolved type.

Modelled from the spec: the classification predicates
(`utils.is_tuple_or_list_of_dataclasses`, `utils.is_subparser_field`,
`utils.is_choice`, `dataclasses.is_dataclass` combined with the field
default, `utils.contains_dataclass_type_arg`) live in `utils.py`, which
is not part of the analyzed sources; spec section 4.2 specifies them as
one total classification over a closed tag set, mirrored here. -/
inductive WFieldKind where
  | containerOfDataclasses  -- tuple/list of nested record types (line 119)
  | subparserOrChoice       -- discriminated-union / choice field (line 125)
  | nestedDataclass         -- plain nested dataclass with non-None default (line 136)
  | optionalDataclass       -- dataclass type argument inside Optional/Union (line 153)
  | normal                  -- everything else (line 171)

/-- A field as seen by `DataclassWrapper.__init__`: name, the
`field.init` flag, the `field.metadata.get("cmd", True)` flag, and the
resolved-type classification. -/
structure WField where
  name : String
  init : Bool := true
  cmd : Bool := true
  kind : WFieldKind

/-- What `DataclassWrapper.__init__` appends for one field: a
`FieldWrapper` (into `self.fields`) or a child `DataclassWrapper` (into
`self._children`, optional for the subgroup case). -/
inductive WrapperItem where
  | fieldItem (name : String)
  | childItem (name : String) (optional : Bool)

/-- The field loop of `DataclassWrapper.__init__`
(dataclass_wrapper.py:77-180): fields excluded by `init=False` or
`metadata["cmd"]=False` are skipped (line 78-80); a container of
dataclasses raises `NotImplementedError` before any wrapper for that
field is built (lines 119-123); subparser/choice fields and plain
fields produce field wrappers; nested/optional dataclass fields produce
child wrappers. -/
def buildWrapperItems : List WField → Except PErr (List WrapperItem)
  | [] => .ok []
  | f :: rest =>
    if !f.init || !f.cmd then buildWrapperItems rest
    else
      match f.kind with
      | WFieldKind.containerOfDataclasses =>
        .error (.notImplemented
          ("Field " ++ f.name ++ " is of a container-of-dataclass type, which isn't supported yet."))
      | WFieldKind.subparserOrChoice =>
        (buildWrapperItems rest).map (fun items => WrapperItem.fieldItem f.name :: items)
      | WFieldKind.nestedDataclass =>
        (buildWrapperItems rest).map (fun items => WrapperItem.childItem f.name false :: items)
      | WFieldKind.optionalDataclass =>
        (buildWrapperItems rest).map (fun items => WrapperItem.childItem f.name true :: items)
      | WFieldKind.normal =>
        (buildWrapperItems rest).map (fun items => WrapperItem.fieldItem f.name :: items)

/-- `argparse.SUPPRESS`, the sentinel string `"==SUPPRESS=="` used at
dataclass_wrapper.py:266. -/
def suppressValue : PyVal := PyVal.strV "==SUPPRESS=="

/-- `default in (None, argparse.SUPPRESS)` (dataclass_wrapper.py:266). -/
def isNoneOrSuppress : PyVal → Bool
  | PyVal.noneV => true
  | PyVal.strV s => s == "==SUPPRESS=="
  | _ => false

/-- `getattr(default, name)` (dataclass_wrapper.py:267): attribute lookup
on a dataclass instance; anything else raises `AttributeError`. -/
def pyGetattr (v : PyVal) (nm : String) : Except PErr PyVal :=
  match v with
  | PyVal.objV attrs =>
    match lookupKV attrs nm with
    | some x => .ok x
    | Option.none => .error (.attributeErr nm)
  | _ => .error (.attributeErr nm)

/-- The mutable state of one `DataclassWrapper` that `merge` touches:
`self._name`, the `self._destinations` cache, the `self._defaults` list,
whether `self._field` is set (`false` exactly for a root wrapper), the
declared default of that originating field (`utils.default_value`;
modelled from the spec since `utils.py` is not among the analyzed
sources: the field's declared default, absent when the field is
required), and the field wrappers' stored defaults. -/
structure MWCore where
  name : String
  destsCache : List String := []
  defaultsAttr : List PyVal := []
  hasField : Bool := false
  fieldDefaultValue : Option PyVal := Option.none
  fieldDefaults : List FieldW := []

/-- A `DataclassWrapper` with its children, as `merge` sees it. -/
inductive MW where
  | mk (core : MWCore) (children : List MW)

/-- The wrapper's own (non-child) state. -/
def MW.core : MW → MWCore
  | .mk c _ => c

/-- The wrapper's child wrappers (`self._children`). -/
def MW.children : MW → List MW
  | .mk _ cs => cs

/-- The `destinations` property (dataclass_wrapper.py:408-415): returns
the cached list if non-empty, otherwise computes it from the parent's
destinations (or `[self.name]` at the root) and caches it.  The
returned list is always the cached attribute, so in-place mutation by
`merge` persists. -/
def destsPropertyRead (parentDests : Option (List String)) (c : MWCore) :
    List String × MWCore :=
  if !c.destsCache.isEmpty then (c.destsCache, c)
  else
    match parentDests with
    | some pds =>
      let ds := pds.map (fun d => d ++ "." ++ c.name)
      (ds, { c with destsCache := ds })
    | Option.none => ([c.name], { c with destsCache := [c.name] })

/-- The `defaults` property (dataclass_wrapper.py:256-275).  Branches, in
source order: a non-empty `self._defaults` is returned as-is (the
attribute itself); a root wrapper (`self._field is None`) returns a
*fresh* empty list that is not the attribute; otherwise the parent's
defaults (passed in by the caller, who must consult the parent) are
mapped through `getattr(default, self.name)` — skipping `None` and
`argparse.SUPPRESS` — or, when the parent has no defaults, the
originating field's own declared default is used; both of those two
branches assign the computed list to `self._defaults` before returning
it, so in-place mutation persists for them. -/
def defaultsPropertyRead (parentVal : Option (List PyVal)) (c : MWCore) :
    Except PErr (List PyVal × MWCore) :=
  if !c.defaultsAttr.isEmpty then .ok (c.defaultsAttr, c)
  else if !c.hasField then .ok ([], c)
  else
    match parentVal with
    | Option.none => .error (.typeErr "assert self.parent is not None")
    | some pv =>
      if !pv.isEmpty then do
        let ds ← mapE (fun d => if isNoneOrSuppress d then .ok d else pyGetattr d c.name) pv
        .ok (ds, { c with defaultsAttr := ds })
      else
        let ds := match c.fieldDefaultValue with
          | some v => [v]
          | Option.none => []
        .ok (ds, { c with defaultsAttr := ds })

/-- The destination loop of `merge` (dataclass_wrapper.py:431-433):
append each of the other wrapper's destinations not already present. -/
def unionDests (sd od : List String) : List String :=
  od.foldl (fun acc d => if d ∈ acc then acc else acc ++ [d]) sd

/-- `zip(self._children, other._children)` with pairwise merge
(dataclass_wrapper.py:442-443): the zip stops at the shorter list, so
surplus children on either side are left untouched. -/
def mergeChildLoop (mrg : MW → MW → Except PErr MW) :
    List MW → List MW → Except PErr (List MW)
  | [], _ => .ok []
  | cs, [] => .ok cs
  | c :: cs, oc :: ocs => do
    let m ← mrg c oc
    let ms ← mergeChildLoop mrg cs ocs
    .ok (m :: ms)

/-- `DataclassWrapper.merge` (dataclass_wrapper.py:421-443), with a
recursion-depth budget.  The parameters `pds`/`pdo` and `pvs`/`pvo` are
the two parents' destination lists and defaults values (absent at the
root), consulted by the lazy `destinations`/`defaults` properties.

Effects, in source order: union the destination lists (deduplicated,
self's first); `self.defaults.extend(other.defaults)` — which mutates
the list object the `defaults` property returned, so the extension is
*lost* whenever that property returned a fresh list (a root wrapper
whose `_defaults` attribute is empty); clear every field wrapper's
default (`set_default(None)`); and merge children pairwise, surplus
children being skipped silently. -/
def mergeMW : Nat → Option (List String) → Option (List String) →
    Option (List PyVal) → Option (List PyVal) → MW → MW → Except PErr MW
  | 0, _, _, _, _, _, _ => .error .recursionLimit
  | fuel + 1, pds, pdo, pvs, pvo, .mk sc scs, .mk oc ocs => do
    let (sd, sc1) := destsPropertyRead pds sc
    let (od, oc1) := destsPropertyRead pdo oc
    let newDests := unionDests sd od
    let (sdl, sc2) ← defaultsPropertyRead pvs sc1
    let (odl, _) ← defaultsPropertyRead pvo oc1
    let newAttr :=
      if sc.defaultsAttr.isEmpty && !sc.hasField then []
      else sdl ++ odl
    let newFieldDefaults := sc2.fieldDefaults.map (fun fw => { fw with default := Option.none })
    let mergedCore :=
      { sc2 with
        destsCache := newDests
        defaultsAttr := newAttr
        fieldDefaults := newFieldDefaults }
    let (selfFresh, _) ← defaultsPropertyRead pvs mergedCore
    let cs' ← mergeChildLoop (mergeMW fuel (some newDests) (some od) (some selfFresh) (some odl))
      scs ocs
    .ok (.mk mergedCore cs')

/-! ## Helper lemmas -/

/-- A loop whose body succeeds on every element succeeds with the mapped
results. -/
theorem mapE_ok_of_forall {α β : Type} (h : α → Except PErr β) (g : α → β) (l : List α)
    (hall : ∀ a ∈ l, h a = .ok (g a)) : mapE h l = .ok (l.map g) := by
  induction l with
  | nil => rfl
  | cons a as ih =>
    have ha := hall a (List.mem_cons_self a as)
    have ih' := ih (fun x hx => hall x (List.mem_cons_of_mem a hx))
    simp only [mapE, ha, ih', List.map_cons]
    rfl

/-- A loop whose body fails identically on every element fails (with the
head's failure). -/
theorem mapE_error_of_forall {α β : Type} (h : α → Except PErr β) (e : PErr) (l : List α)
    (hne : l ≠ []) (hall : ∀ a ∈ l, h a = .error e) : mapE h l = .error e := by
  cases l with
  | nil => exact absurd rfl hne
  | cons a as =>
    simp only [mapE, hall a (List.mem_cons_self a as)]
    rfl

/-- Looking up the name at index `i` of a duplicate-free name list finds
exactly index `i`. -/
theorem findIndex_get_of_nodup (l : List String) (hnd : l.Nodup) (i : Nat)
    (hi : i < l.length) :
    findIndex (fun n => n == l[i]) l = some i := by
  induction l generalizing i with
  | nil => simp at hi
  | cons x xs ih =>
    rcases List.nodup_cons.mp hnd with ⟨hx, hxs⟩
    cases i with
    | zero => simp [findIndex]
    | succ j =>
      have hj : j < xs.length := by simpa using hi
      have hmem : xs[j] ∈ xs := List.getElem_mem hj
      have hne : x ≠ xs[j] := fun hxe => hx (hxe ▸ hmem)
      simp [findIndex, hne, ih hxs j hj]

/-! ## Claim theorems -/

/-- Claim C8 (confirmed): for a scalar field of a type requested at more
than one destination (`multiple = true`), the option declaration's arity
is one-or-more (`nargs="+"`) when the field has no declared default (and
the declaration is marked required), and zero-or-more (`nargs="*"`) when
a default (or default factory) exists (parsing.py:118-123). -/
theorem scalar_multiple_arity (f : PField) (hf : f.type = FieldKind.scalar) :
    ((f.default = Option.none ∧ f.default_factory = Option.none) →
      (addArgumentOptions f true).nargs = some NArgs.plus ∧
      (addArgumentOptions f true).required = true) ∧
    (∀ d, f.default = some d → (addArgumentOptions f true).nargs = some NArgs.star) ∧
    (∀ d, f.default = Option.none → f.default_factory = some d →
      (addArgumentOptions f true).nargs = some NArgs.star) := by
  obtain ⟨nm, ty, dflt, dfac⟩ := f
  simp only at hf
  subst hf
  refine ⟨?_, ?_, ?_⟩
  · rintro ⟨h1, h2⟩
    simp only at h1 h2
    subst h1; subst h2
    exact ⟨rfl, rfl⟩
  · intro d hd
    simp only at hd
    subst hd
    rfl
  · intro d h1 h2
    simp only at h1 h2
    subst h1; subst h2
    rfl

/-- Witness field for the scalar-arity claim: a required scalar field. -/
def lrPField : PField := { name := "lr", type := FieldKind.scalar }

/-- Witness for C8 at a concrete required scalar field. -/
theorem scalar_multiple_arity_witness :
    ((lrPField.default = Option.none ∧ lrPField.default_factory = Option.none) →
      (addArgumentOptions lrPField true).nargs = some NArgs.plus ∧
      (addArgumentOptions lrPField true).required = true) ∧
    (∀ d, lrPField.default = some d → (addArgumentOptions lrPField true).nargs = some NArgs.star) ∧
    (∀ d, lrPField.default = Option.none → lrPField.default_factory = some d →
      (addArgumentOptions lrPField true).nargs = some NArgs.star) :=
  scalar_multiple_arity lrPField rfl

/-- Claim C2 (confirmed): boolean inversion law at single-instance
reconstruction (parsing.py:142-151 together with the declaration built
at parsing.py:111-116).  For a boolean field whose declared default is
`d` (taken as `False` when the schema declares none): a parsed value of
`None` (the bare-flag sentinel) reconstructs to `NOT d`; a boolean
literal is used as-is; any other parsed value raises
`ArgumentTypeError`; and when the flag is not supplied at all the
engine places the declaration's default — which is `d` — in the
namespace, so the field reconstructs to `d`. -/
theorem boolean_inversion (f : PField) (d : Bool)
    (hf : f.type = FieldKind.boolean)
    (hd : (f.default = Option.none ∧ f.default_factory = Option.none ∧ d = false) ∨
          f.default = some (PyVal.boolV d)) :
    instantiateFieldValue f PyVal.noneV = .ok (PyVal.boolV (!d)) ∧
    (∀ b, instantiateFieldValue f (PyVal.boolV b) = .ok (PyVal.boolV b)) ∧
    (∀ v, v ≠ PyVal.noneV → (∀ b, v ≠ PyVal.boolV b) →
      ∃ msg, instantiateFieldValue f v = .error (.argumentType msg)) ∧
    (addArgumentOptions f false).default = some (PyVal.boolV d) ∧
    (∀ v, engineValue (addArgumentOptions f false) Option.none = some v →
      instantiateFieldValue f v = .ok (PyVal.boolV d)) := by
  obtain ⟨nm, ty, dflt, dfac⟩ := f
  simp only at hf
  subst hf
  have hdflt : dflt = Option.none ∧ d = false ∨ dflt = some (PyVal.boolV d) := by
    rcases hd with ⟨h1, _, h3⟩ | h
    · exact Or.inl ⟨h1, h3⟩
    · exact Or.inr h
  have hbare : instantiateFieldValue ⟨nm, FieldKind.boolean, dflt, dfac⟩ PyVal.noneV =
      .ok (PyVal.boolV (!d)) := by
    rcases hdflt with ⟨h1, h3⟩ | h
    · subst h1; subst h3; rfl
    · subst h
      simp [instantiateFieldValue, instantiateBool, pyTruthy]
  have hdefault : (addArgumentOptions ⟨nm, FieldKind.boolean, dflt, dfac⟩ false).default =
      some (PyVal.boolV d) := by
    rcases hdflt with ⟨h1, h3⟩ | h
    · subst h1; subst h3
      cases dfac <;> rfl
    · subst h
      cases dfac <;> rfl
  refine ⟨hbare, fun b => rfl, ?_, hdefault, ?_⟩
  · intro v hv1 hv2
    cases v with
    | noneV => exact absurd rfl hv1
    | boolV b => exact absurd rfl (hv2 b)
    | intV n => exact ⟨_, rfl⟩
    | strV s => exact ⟨_, rfl⟩
    | enumMember i => exact ⟨_, rfl⟩
    | listV xs => exact ⟨_, rfl⟩
    | tupleV xs => exact ⟨_, rfl⟩
    | dictV kvs => exact ⟨_, rfl⟩
    | objV attrs => exact ⟨_, rfl⟩
  · intro v hv
    simp only [engineValue, hdefault] at hv
    have hv' : v = PyVal.boolV d := by
      cases hv
      rfl
    subst hv'
    rfl

/-- Witness field for the boolean-inversion claim: a boolean flag whose
declared default is `True`. -/
def cachePField : PField :=
  { name := "cache", type := FieldKind.boolean, default := some (PyVal.boolV true) }

/-- Witness for C2 at a concrete boolean field with default `True`. -/
theorem boolean_inversion_witness :
    instantiateFieldValue cachePField PyVal.noneV = .ok (PyVal.boolV (!true)) ∧
    (∀ b, instantiateFieldValue cachePField (PyVal.boolV b) = .ok (PyVal.boolV b)) ∧
    (∀ v, v ≠ PyVal.noneV → (∀ b, v ≠ PyVal.boolV b) →
      ∃ msg, instantiateFieldValue cachePField v = .error (.argumentType msg)) ∧
    (addArgumentOptions cachePField false).default = some (PyVal.boolV true) ∧
    (∀ v, engineValue (addArgumentOptions cachePField false) Option.none = some v →
      instantiateFieldValue cachePField v = .ok (PyVal.boolV true)) :=
  boolean_inversion cachePField true rfl (Or.inr rfl)

/-- Claim C3 (confirmed): enum name fidelity (parsing.py:89-96 and
parsing.py:133-134).  For an enumeration-typed field: the declared
choices are exactly the member names, the value type handed to the
engine is `str`, an enum-member schema default is converted to its name
for the engine default, and reconstruction looks the parsed name back
up in the enum, so a member's name parses back to that member. -/
theorem enum_name_fidelity (e : PyEnum) (f : PField) (m : Bool)
    (hf : f.type = FieldKind.enum e)
    (hnd : e.memberNames.Nodup) :
    (addArgumentOptions f m).choices = some e.memberNames ∧
    (addArgumentOptions f m).type = ArgType.str ∧
    (∀ i, f.default = some (PyVal.enumMember i) →
      (addArgumentOptions f m).default = some (PyVal.strV (e.memberNames.getD i ""))) ∧
    (∀ i (hi : i < e.memberNames.length),
      instantiateFieldValue f (PyVal.strV e.memberNames[i]) = .ok (PyVal.enumMember i)) := by
  obtain ⟨nm, ty, dflt, dfac⟩ := f
  simp only at hf
  subst hf
  refine ⟨?_, ?_, ?_, ?_⟩
  · cases dflt with
    | none => cases dfac with
      | none => rfl
      | some d => cases d <;> rfl
    | some d => cases d <;> rfl
  · cases dflt with
    | none => cases dfac with
      | none => rfl
      | some d => cases d <;> rfl
    | some d => cases d <;> rfl
  · intro i hd
    simp only at hd
    subst hd
    rfl
  · intro i hi
    simp only [instantiateFieldValue]
    rw [findIndex_get_of_nodup e.memberNames hnd i hi]

/-- Witness enum for the enum-fidelity claim. -/
def colorEnum : PyEnum :=
  { memberNames := ["RED", "GREEN", "BLUE"],
    memberValues := [PyVal.intV 1, PyVal.intV 2, PyVal.intV 3] }

/-- Witness field for the enum-fidelity claim, defaulting to the member
at index 1 (`GREEN`). -/
def colorPField : PField :=
  { name := "color", type := FieldKind.enum colorEnum,
    default := some (PyVal.enumMember 1) }

/-- Witness for C3 at a concrete three-member enum. -/
theorem enum_name_fidelity_witness :
    (addArgumentOptions colorPField false).choices = some colorEnum.memberNames ∧
    (addArgumentOptions colorPField false).type = ArgType.str ∧
    (∀ i, colorPField.default = some (PyVal.enumMember i) →
      (addArgumentOptions colorPField false).default =
        some (PyVal.strV (colorEnum.memberNames.getD i ""))) ∧
    (∀ i (hi : i < colorEnum.memberNames.length),
      instantiateFieldValue colorPField (PyVal.strV colorEnum.memberNames[i]) =
        .ok (PyVal.enumMember i)) :=
  enum_name_fidelity colorEnum colorPField false rfl (by decide)

/-- The boolean field with no declared default used to refute claim C6. -/
def flagPField : PField := { name := "flag", type := FieldKind.boolean }

/-- Claim C6 counterexample: for a boolean field with no declared default
(and no default factory), the generated declaration does mark the field
required, but it also *invents* an engine default of `False` — a value
not derivable from the schema — and keeps arity zero-or-one, and a bare
flag (parsed value `None`) is not rejected: it reconstructs to `True`.
This refutes the conjunction claimed (bare presence disallowed, no
invented default). -/
theorem boolean_required_counterexample :
    flagPField.default = Option.none ∧
    flagPField.default_factory = Option.none ∧
    (addArgumentOptions flagPField false).required = true ∧
    (addArgumentOptions flagPField false).default = some (PyVal.boolV false) ∧
    (addArgumentOptions flagPField false).nargs = some NArgs.question ∧
    instantiateFieldValue flagPField PyVal.noneV = .ok (PyVal.boolV true) :=
  ⟨rfl, rfl, rfl, rfl, rfl, rfl⟩

/-- Claim C6 as amended: for a boolean field with no declared default the
declaration is marked required, but parsing.py:112 nonetheless sets its
engine default to `False` (an invented value), the arity stays
zero-or-one (zero-or-more under multiple destinations), and a bare flag
is still accepted by the declaration, reconstructing to
`NOT False = True` (parsing.py:111-116, 142-151). -/
theorem boolean_required_amended (f : PField) (m : Bool)
    (hf : f.type = FieldKind.boolean)
    (hd : f.default = Option.none) :
    (addArgumentOptions f m).required = true ∧
    (addArgumentOptions f m).default = some (PyVal.boolV false) ∧
    (addArgumentOptions f m).nargs = some (if m then NArgs.star else NArgs.question) ∧
    instantiateFieldValue f PyVal.noneV = .ok (PyVal.boolV true) := by
  obtain ⟨nm, ty, dflt, dfac⟩ := f
  simp only at hf hd
  subst hf
  subst hd
  cases dfac <;> cases m <;> exact ⟨rfl, rfl, rfl, rfl⟩

/-- Witness for the amended C6 at the concrete no-default boolean field. -/
theorem boolean_required_amended_witness :
    (addArgumentOptions flagPField false).required = true ∧
    (addArgumentOptions flagPField false).default = some (PyVal.boolV false) ∧
    (addArgumentOptions flagPField false).nargs =
      some (if false then NArgs.star else NArgs.question) ∧
    instantiateFieldValue flagPField PyVal.noneV = .ok (PyVal.boolV true) :=
  boolean_required_amended flagPField false rfl rfl

/-- Pushing a continuation past a successful `Except`. -/
theorem pbind_ok {α β : Type} (a : α) (h : α → Except PErr β) :
    (Except.ok a >>= h) = h a := rfl

/-- Pushing a continuation past a raised `Except`. -/
theorem pbind_error {α β : Type} (e : PErr) (h : α → Except PErr β) :
    ((Except.error e : Except PErr α) >>= h) = Except.error e := rfl

/-- A dataclass with a single scalar field named `nm`. -/
def singlePField (nm : String) : List PField := [{ name := nm, type := FieldKind.scalar }]

/-- A namespace binding only the field `nm` to `v`. -/
def singleNS (nm : String) (v : PyVal) : NS := [(nm, v)]

/-- The single-field value gather step evaluates to that field's value. -/
theorem gather_single (nm : String) (v : PyVal) :
    gatherFieldValues (singlePField nm) (singleNS nm v) = .ok [(nm, v)] := by
  simp only [gatherFieldValues, singlePField, singleNS, mapE, nsGet, beq_self_eq_true, if_true]
  rfl

/-- A one-field instance-argument loop reduces to the single
distribution step. -/
theorem perInstance_single_ok (nm : String) (v x : PyVal) (n i : Nat)
    (hx : instanceArgValue n i nm v = .ok x) :
    perInstance [(nm, v)] n i = .ok [(nm, x)] := by
  simp only [perInstance, mapE, hx, Except.map, pbind_ok]

/-- A one-field instance-argument loop propagates the single
distribution step's failure. -/
theorem perInstance_single_error (nm : String) (v : PyVal) (e : PErr) (n i : Nat)
    (hx : instanceArgValue n i nm v = .error e) :
    perInstance [(nm, v)] n i = .error e := by
  simp only [perInstance, mapE, hx, Except.map, pbind_error]

/-- Multi-instance reconstruction of a one-field dataclass, when every
instance's distribution step succeeds. -/
theorem instantiateMultiple_single_ok (nm : String) (v : PyVal) (n : Nat) (g : Nat → PyVal)
    (hall : ∀ i ∈ List.range n, instanceArgValue n i nm v = .ok (g i)) :
    instantiateMultipleDataclasses (singlePField nm) (singleNS nm v) n =
      .ok ((List.range n).map (fun i => PyVal.objV [(nm, g i)])) := by
  have hb : buildPerInstance [(nm, v)] n = .ok ((List.range n).map (fun i => [(nm, g i)])) :=
    mapE_ok_of_forall _ _ _ (fun i hi => perInstance_single_ok nm v (g i) n i (hall i hi))
  simp only [instantiateMultipleDataclasses, gather_single, hb, pbind_ok, List.map_map]
  rfl

/-- Multi-instance reconstruction of a one-field dataclass, when the
distribution step fails identically for every instance. -/
theorem instantiateMultiple_single_error (nm : String) (v : PyVal) (n : Nat) (e : PErr)
    (hn : n ≠ 0)
    (hall : ∀ i ∈ List.range n, instanceArgValue n i nm v = .error e) :
    instantiateMultipleDataclasses (singlePField nm) (singleNS nm v) n = .error e := by
  have hne : List.range n ≠ [] := by
    intro h
    exact hn (List.range_eq_nil.mp h)
  have hb : buildPerInstance [(nm, v)] n = .error e :=
    mapE_error_of_forall _ _ _ hne (fun i hi => perInstance_single_error nm v e n i (hall i hi))
  simp only [instantiateMultipleDataclasses, gather_single, hb, pbind_ok, pbind_error]

/-- A non-list accumulated value takes the first branch of
parsing.py:172-173 and is passed through unchanged. -/
theorem instanceArgValue_not_list (n i : Nat) (nm : String) (v : PyVal)
    (hv : ∀ xs, v ≠ PyVal.listV xs) :
    instanceArgValue n i nm v = .ok v := by
  cases v with
  | listV xs => exact absurd rfl (hv xs)
  | _ => rfl

/-- A list of unexpected length raises `InconsistentArgumentError`
(parsing.py:180-182). -/
theorem instanceArgValue_bad_length (n i : Nat) (nm : String) (xs : List PyVal)
    (h0 : xs.length ≠ 0) (h1 : xs.length ≠ 1) (hn : xs.length ≠ n) :
    instanceArgValue n i nm (PyVal.listV xs) =
      .error (.inconsistentArgument (inconsistentMessage nm xs.length n)) := by
  simp only [instanceArgValue]
  rw [if_neg h0, if_neg h1, if_neg hn]

/-- A list of exactly `n` values distributes positionally
(parsing.py:178-179). -/
theorem instanceArgValue_positional (n i : Nat) (nm : String) (xs : List PyVal)
    (hlen : xs.length = n) (h2 : 2 ≤ n) :
    instanceArgValue n i nm (PyVal.listV xs) = .ok (xs.getD i PyVal.noneV) := by
  simp only [instanceArgValue]
  rw [if_neg (by omega), if_neg (by omega), if_pos hlen]

/-- The concrete dataclass used to refute claim C1: one scalar field `f`. -/
def tupleCounterPFields : List PField := singlePField "f"

/-- The namespace used to refute claim C1: field `f` carries an
accumulated value that is a 2-element *tuple*, with 3 instances
requested. -/
def tupleCounterNS : NS := singleNS "f" (PyVal.tupleV [PyVal.intV 1, PyVal.intV 2])

/-- Claim C1 counterexample: a 2-element tuple is a (non-empty) sequence
whose length is neither 1 nor 3, so the claim demands
`InconsistentArgumentError`; but parsing.py:172 tests
`not isinstance(field_values, list)`, so the tuple takes the
pass-through branch and all 3 instances are built successfully with the
whole tuple as the field value. -/
theorem multi_instance_counterexample :
    instantiateMultipleDataclasses tupleCounterPFields tupleCounterNS 3 =
      .ok [PyVal.objV [("f", PyVal.tupleV [PyVal.intV 1, PyVal.intV 2])],
           PyVal.objV [("f", PyVal.tupleV [PyVal.intV 1, PyVal.intV 2])],
           PyVal.objV [("f", PyVal.tupleV [PyVal.intV 1, PyVal.intV 2])]] ∧
    instantiateMultipleDataclasses tupleCounterPFields tupleCounterNS 3 ≠
      .error (.inconsistentArgument (inconsistentMessage "f" 2 3)) := by
  refine ⟨rfl, ?_⟩
  intro h
  rw [show instantiateMultipleDataclasses tupleCounterPFields tupleCounterNS 3 =
      .ok [PyVal.objV [("f", PyVal.tupleV [PyVal.intV 1, PyVal.intV 2])],
           PyVal.objV [("f", PyVal.tupleV [PyVal.intV 1, PyVal.intV 2])],
           PyVal.objV [("f", PyVal.tupleV [PyVal.intV 1, PyVal.intV 2])]] from rfl] at h
  exact Except.noConfusion h

/-- Claim C1 as amended (replacing "sequence" by "list", which is what
parsing.py:171-182 actually branches on): for a field of a record type
requested at `n > 1` destinations, a non-list accumulated value (tuples
and strings included) is passed unchanged to all `n` instances; an
empty list is passed unchanged; a one-element list is broadcast; a list
of exactly `n` elements is distributed positionally; a list of any
other length raises `InconsistentArgumentError` whose message names the
field, its actual count, and the expected counts 1 and `n`. -/
theorem multi_instance_distribution (nm : String) (v : PyVal) (n : Nat) (hn : 2 ≤ n) :
    ((∀ xs, v ≠ PyVal.listV xs) →
      instantiateMultipleDataclasses (singlePField nm) (singleNS nm v) n =
        .ok (List.replicate n (PyVal.objV [(nm, v)]))) ∧
    (v = PyVal.listV [] →
      instantiateMultipleDataclasses (singlePField nm) (singleNS nm v) n =
        .ok (List.replicate n (PyVal.objV [(nm, PyVal.listV [])]))) ∧
    (∀ x, v = PyVal.listV [x] →
      instantiateMultipleDataclasses (singlePField nm) (singleNS nm v) n =
        .ok (List.replicate n (PyVal.objV [(nm, x)]))) ∧
    (∀ xs, v = PyVal.listV xs → xs.length = n →
      instantiateMultipleDataclasses (singlePField nm) (singleNS nm v) n =
        .ok ((List.range n).map (fun i => PyVal.objV [(nm, xs.getD i PyVal.noneV)]))) ∧
    (∀ xs, v = PyVal.listV xs → xs.length ≠ 0 → xs.length ≠ 1 → xs.length ≠ n →
      instantiateMultipleDataclasses (singlePField nm) (singleNS nm v) n =
        .error (.inconsistentArgument (inconsistentMessage nm xs.length n))) ∧
    (∀ c, inconsistentMessage nm c n =
      "The field '" ++ nm ++ "' contains " ++ toString c ++
        " values, but either 1 or " ++ toString n ++ " values were expected.") := by
  have hrep : ∀ c : PyVal,
      (List.range n).map (fun _ => PyVal.objV [(nm, c)]) =
        List.replicate n (PyVal.objV [(nm, c)]) := by
    intro c
    rw [List.map_const', List.length_range]
  refine ⟨?_, ?_, ?_, ?_, ?_, fun c => rfl⟩
  · intro hv
    have := instantiateMultiple_single_ok nm v n (fun _ => v)
      (fun i _ => instanceArgValue_not_list n i nm v hv)
    rwa [hrep v] at this
  · intro hv
    subst hv
    have := instantiateMultiple_single_ok nm (PyVal.listV []) n (fun _ => PyVal.listV [])
      (fun i _ => rfl)
    rwa [hrep (PyVal.listV [])] at this
  · intro x hv
    subst hv
    have := instantiateMultiple_single_ok nm (PyVal.listV [x]) n (fun _ => x)
      (fun i _ => rfl)
    rwa [hrep x] at this
  · intro xs hv hlen
    subst hv
    exact instantiateMultiple_single_ok nm (PyVal.listV xs) n (fun i => xs.getD i PyVal.noneV)
      (fun i _ => instanceArgValue_positional n i nm xs hlen hn)
  · intro xs hv h0 h1 hxn
    subst hv
    exact instantiateMultiple_single_error nm (PyVal.listV xs) n _ (by omega)
      (fun i _ => instanceArgValue_bad_length n i nm xs h0 h1 hxn)

/-- Witness for the amended C1: a 2-element list for 3 requested
instances raises the error naming `f`, `2`, `1` and `3`. -/
theorem multi_instance_distribution_witness :
    ((∀ xs, PyVal.listV [PyVal.intV 1, PyVal.intV 2] ≠ PyVal.listV xs) →
      instantiateMultipleDataclasses (singlePField "f")
          (singleNS "f" (PyVal.listV [PyVal.intV 1, PyVal.intV 2])) 3 =
        .ok (List.replicate 3 (PyVal.objV [("f", PyVal.listV [PyVal.intV 1, PyVal.intV 2])]))) ∧
    (PyVal.listV [PyVal.intV 1, PyVal.intV 2] = PyVal.listV [] →
      instantiateMultipleDataclasses (singlePField "f")
          (singleNS "f" (PyVal.listV [PyVal.intV 1, PyVal.intV 2])) 3 =
        .ok (List.replicate 3 (PyVal.objV [("f", PyVal.listV [])]))) ∧
    (∀ x, PyVal.listV [PyVal.intV 1, PyVal.intV 2] = PyVal.listV [x] →
      instantiateMultipleDataclasses (singlePField "f")
          (singleNS "f" (PyVal.listV [PyVal.intV 1, PyVal.intV 2])) 3 =
        .ok (List.replicate 3 (PyVal.objV [("f", x)]))) ∧
    (∀ xs, PyVal.listV [PyVal.intV 1, PyVal.intV 2] = PyVal.listV xs → xs.length = 3 →
      instantiateMultipleDataclasses (singlePField "f")
          (singleNS "f" (PyVal.listV [PyVal.intV 1, PyVal.intV 2])) 3 =
        .ok ((List.range 3).map (fun i => PyVal.objV [("f", xs.getD i PyVal.noneV)]))) ∧
    (∀ xs, PyVal.listV [PyVal.intV 1, PyVal.intV 2] = PyVal.listV xs →
        xs.length ≠ 0 → xs.length ≠ 1 → xs.length ≠ 3 →
      instantiateMultipleDataclasses (singlePField "f")
          (singleNS "f" (PyVal.listV [PyVal.intV 1, PyVal.intV 2])) 3 =
        .error (.inconsistentArgument (inconsistentMessage "f" xs.length 3))) ∧
    (∀ c, inconsistentMessage "f" c 3 =
      "The field '" ++ "f" ++ "' contains " ++ toString c ++
        " values, but either 1 or " ++ toString 3 ++ " values were expected.") :=
  multi_instance_distribution "f" (PyVal.listV [PyVal.intV 1, PyVal.intV 2]) 3 (by decide)

/-- Claim C7 (confirmed): unsupported containers of records fail fast
(dataclass_wrapper.py:119-123).  If any field included on the command
line (`init=True` and `metadata["cmd"]` not `False`) has a tuple/list
of dataclasses as its resolved type, wrapper construction raises
`NotImplementedError`: no wrapper item list is produced at all, so
nothing can be registered with the engine and nothing is silently
degraded or truncated. -/
theorem container_of_dataclasses_fails_fast (fields : List WField) (f : WField)
    (hf : f ∈ fields) (hinit : f.init = true) (hcmd : f.cmd = true)
    (hkind : f.kind = WFieldKind.containerOfDataclasses) :
    ∃ msg, buildWrapperItems fields = .error (.notImplemented msg) := by
  induction fields with
  | nil => simp at hf
  | cons g rest ih =>
    rcases List.mem_cons.mp hf with hfg | hmem
    · subst hfg
      simp only [buildWrapperItems, hinit, hcmd, hkind, Bool.not_true, Bool.or_self,
        Bool.false_eq_true, if_false]
      exact ⟨_, rfl⟩
    · obtain ⟨msg, hmsg⟩ := ih hmem
      simp only [buildWrapperItems]
      by_cases hg : (!g.init || !g.cmd) = true
      · rw [if_pos hg]
        exact ⟨msg, hmsg⟩
      · rw [if_neg hg]
        cases hk : g.kind with
        | containerOfDataclasses => exact ⟨_, rfl⟩
        | subparserOrChoice => rw [hmsg]; exact ⟨msg, rfl⟩
        | nestedDataclass => rw [hmsg]; exact ⟨msg, rfl⟩
        | optionalDataclass => rw [hmsg]; exact ⟨msg, rfl⟩
        | normal => rw [hmsg]; exact ⟨msg, rfl⟩

/-- Witness field for C7: a container-of-dataclasses field. -/
def itemsWField : WField := { name := "items", kind := WFieldKind.containerOfDataclasses }

/-- Witness schema for C7: an ordinary field followed by the
container-of-dataclasses field. -/
def containerSchema : List WField :=
  [{ name := "a", kind := WFieldKind.normal }, itemsWField]

/-- Witness for C7 at the concrete schema. -/
theorem container_of_dataclasses_fails_fast_witness :
    ∃ msg, buildWrapperItems containerSchema = .error (.notImplemented msg) :=
  container_of_dataclasses_fails_fast containerSchema itemsWField
    (List.mem_cons_of_mem _ (List.mem_cons_self _ _)) rfl rfl rfl

/-- `setattr` touches exactly the bound attribute. -/
theorem nsGet_nsSet (ns : NS) (k : String) (v : PyVal) (k' : String) :
    nsGet (nsSet ns k v) k' = if k' = k then some v else nsGet ns k' := by
  induction ns with
  | nil =>
    simp only [nsSet, nsGet]
    by_cases h : k' = k
    · subst h
      simp
    · have hf : (k == k') = false := beq_eq_false_iff_ne.mpr (Ne.symm h)
      simp [hf, h]
  | cons hd tl ih =>
    obtain ⟨k0, v0⟩ := hd
    simp only [nsSet]
    by_cases h0 : k0 = k
    · subst h0
      rw [if_pos (beq_self_eq_true k0)]
      simp only [nsGet]
      by_cases h : k' = k0
      · subst h
        simp
      · have h1 : (k0 == k') = false := beq_eq_false_iff_ne.mpr (Ne.symm h)
        simp [h1, h]
    · have hf0 : (k0 == k) = false := beq_eq_false_iff_ne.mpr h0
      rw [if_neg (by simp [hf0])]
      simp only [nsGet]
      by_cases h : k' = k0
      · subst h
        simp only [beq_self_eq_true, if_true]
        rw [if_neg (fun hh : k' = k => h0 (hh ▸ rfl))]
      · have h1 : (k0 == k') = false := beq_eq_false_iff_ne.mpr (Ne.symm h)
        simp [h1, ih]

/-- Binding instances at destinations leaves every other attribute
untouched. -/
theorem nsGet_bindZip_not_mem (ns : NS) (insts : List PyVal) (dests : List String)
    (k : String) (hk : k ∉ dests) :
    nsGet (bindZip ns insts dests) k = nsGet ns k := by
  induction dests generalizing ns insts with
  | nil => cases insts <;> rfl
  | cons d ds ih =>
    cases insts with
    | nil => rfl
    | cons i is =>
      have hk' : k ∉ ds := fun h => hk (List.mem_cons_of_mem d h)
      have hkd : k ≠ d := fun h => hk (h ▸ List.mem_cons_self d ds)
      simp only [bindZip]
      rw [ih (nsSet ns d i) is hk', nsGet_nsSet, if_neg hkd]

/-- Binding instances at duplicate-free destinations binds the `j`-th
instance at the `j`-th destination. -/
theorem nsGet_bindZip_getD (ns : NS) (insts : List PyVal) (dests : List String)
    (hnd : dests.Nodup) (hlen : insts.length = dests.length)
    (j : Nat) (hj : j < dests.length) :
    nsGet (bindZip ns insts dests) (dests.getD j "") = some (insts.getD j PyVal.noneV) := by
  induction dests generalizing ns insts j with
  | nil => simp at hj
  | cons d ds ih =>
    cases insts with
    | nil => simp at hlen
    | cons i is =>
      rcases List.nodup_cons.mp hnd with ⟨hd, hds⟩
      cases j with
      | zero =>
        simp only [bindZip, List.getD_cons_zero]
        rw [nsGet_bindZip_not_mem _ _ _ _ hd, nsGet_nsSet, if_pos rfl]
      | succ m =>
        simp only [bindZip, List.getD_cons_succ]
        exact ih (nsSet ns d i) is hds (by simpa using hlen) m (by simpa using hj)

/-- Single-instance reconstruction only reads the fields' own
attributes. -/
theorem constructorArgs_congr (fields : List PField) (ns1 ns2 : NS)
    (h : ∀ f ∈ fields, nsGet ns1 f.name = nsGet ns2 f.name) :
    constructorArgs fields ns1 = constructorArgs fields ns2 := by
  induction fields with
  | nil => rfl
  | cons f rest ih =>
    have ih' := ih (fun g hg => h g (List.mem_cons_of_mem f hg))
    simp only [constructorArgs, mapE] at ih' ⊢
    rw [h f (List.mem_cons_self f rest), ih']

/-- Multi-instance gathering only reads the fields' own attributes. -/
theorem gatherFieldValues_congr (fields : List PField) (ns1 ns2 : NS)
    (h : ∀ f ∈ fields, nsGet ns1 f.name = nsGet ns2 f.name) :
    gatherFieldValues fields ns1 = gatherFieldValues fields ns2 := by
  induction fields with
  | nil => rfl
  | cons f rest ih =>
    have ih' := ih (fun g hg => h g (List.mem_cons_of_mem f hg))
    simp only [gatherFieldValues, mapE] at ih' ⊢
    rw [h f (List.mem_cons_self f rest), ih']

/-- Single-instance reconstruction only reads the fields' own
attributes. -/
theorem instantiateDataclass_congr (fields : List PField) (ns1 ns2 : NS)
    (h : ∀ f ∈ fields, nsGet ns1 f.name = nsGet ns2 f.name) :
    instantiateDataclass fields ns1 = instantiateDataclass fields ns2 := by
  simp only [instantiateDataclass, constructorArgs_congr fields ns1 ns2 h]

/-- Multi-instance reconstruction only reads the fields' own
attributes. -/
theorem instantiateMultiple_congr (fields : List PField) (ns1 ns2 : NS) (n : Nat)
    (h : ∀ f ∈ fields, nsGet ns1 f.name = nsGet ns2 f.name) :
    instantiateMultipleDataclasses fields ns1 n = instantiateMultipleDataclasses fields ns2 n := by
  simp only [instantiateMultipleDataclasses, gatherFieldValues_congr fields ns1 ns2 h]

/-- A successful loop returns one result per input. -/
theorem mapE_length {α β : Type} (h : α → Except PErr β) (l : List α) (l' : List β)
    (hok : mapE h l = .ok l') : l'.length = l.length := by
  induction l generalizing l' with
  | nil => cases hok; rfl
  | cons a as ih =>
    simp only [mapE] at hok
    cases ha : h a with
    | error e => rw [ha] at hok; exact Except.noConfusion hok
    | ok b =>
      rw [ha, pbind_ok] at hok
      cases hrest : mapE h as with
      | error e => rw [hrest] at hok; exact Except.noConfusion hok
      | ok bs =>
        rw [hrest, pbind_ok] at hok
        cases hok
        simp [ih bs hrest]

/-- Successful multi-instance reconstruction returns exactly one
instance per requested destination. -/
theorem instantiateMultiple_length (fields : List PField) (ns : NS) (n : Nat)
    (insts : List PyVal)
    (h : instantiateMultipleDataclasses fields ns n = .ok insts) :
    insts.length = n := by
  simp only [instantiateMultipleDataclasses] at h
  cases hg : gatherFieldValues fields ns with
  | error e => rw [hg] at h; exact Except.noConfusion h
  | ok cargs =>
    rw [hg, pbind_ok] at h
    cases hb : buildPerInstance cargs n with
    | error e => rw [hb] at h; exact Except.noConfusion h
    | ok argLists =>
      rw [hb, pbind_ok] at h
      cases h
      have := mapE_length _ _ _ hb
      simp [List.length_map, this]

/-- All destinations of a registration list, in registration order. -/
def allDests (regs : List Registration) : List String :=
  regs.foldr (fun r acc => r.destinations ++ acc) []

/-- All flat field names of a registration list. -/
def allFieldNames (regs : List Registration) : List String :=
  regs.foldr (fun r acc => r.fields.map PField.name ++ acc) []

/-- Unfolding `allDests` over a cons. -/
theorem allDests_cons (r : Registration) (rest : List Registration) :
    allDests (r :: rest) = r.destinations ++ allDests rest := rfl

/-- Unfolding `allFieldNames` over a cons. -/
theorem allFieldNames_cons (r : Registration) (rest : List Registration) :
    allFieldNames (r :: rest) = r.fields.map PField.name ++ allFieldNames rest := rfl

/-- Frame property of the binding loop: attributes outside the
destination lists are untouched. -/
theorem bindInstances_frame (regs : List Registration) (ns ns' : NS)
    (hok : bindInstances regs ns = .ok ns') (k : String) (hk : k ∉ allDests regs) :
    nsGet ns' k = nsGet ns k := by
  induction regs generalizing ns with
  | nil => cases hok; rfl
  | cons r rest ih =>
    rw [allDests_cons] at hk
    have hkr : k ∉ r.destinations := fun h => hk (List.mem_append_left _ h)
    have hkrest : k ∉ allDests rest := fun h => hk (List.mem_append_right _ h)
    simp only [bindInstances] at hok
    by_cases hlen : r.destinations.length = 1
    · rw [if_pos hlen] at hok
      cases hinst : instantiateDataclass r.fields ns with
      | error e => rw [hinst] at hok; exact Except.noConfusion hok
      | ok inst =>
        rw [hinst] at hok
        obtain ⟨d, hd⟩ := List.length_eq_one.mp hlen
        have hkd : k ≠ d := fun h => hkr (h ▸ hd ▸ List.mem_cons_self d [])
        rw [ih (nsSet ns (r.destinations.getD 0 "") inst) hok hkrest, nsGet_nsSet, hd]
        simp only [List.getD_cons_zero]
        rw [if_neg hkd]
    · rw [if_neg hlen] at hok
      cases hinsts : instantiateMultipleDataclasses r.fields ns r.destinations.length with
      | error e => rw [hinsts] at hok; exact Except.noConfusion hok
      | ok insts =>
        rw [hinsts] at hok
        rw [ih (bindZip ns insts r.destinations) hok hkrest]
        exact nsGet_bindZip_not_mem ns insts r.destinations k hkr

/-- Characterization of the binding loop when the destinations are
disjoint from the flat field names: every registration's instance(s)
are computed against the engine namespace `ns0` and bound at their
destinations. -/
theorem bindInstances_spec (regs : List Registration) (ns0 : NS) :
    ∀ (ns ns' : NS),
    (∀ fn ∈ allFieldNames regs, nsGet ns fn = nsGet ns0 fn) →
    (∀ d ∈ allDests regs, d ∉ allFieldNames regs) →
    (allDests regs).Nodup →
    bindInstances regs ns = .ok ns' →
    (∀ r ∈ regs, ∀ d, r.destinations = [d] →
      ∃ inst, instantiateDataclass r.fields ns0 = .ok inst ∧ nsGet ns' d = some inst) ∧
    (∀ r ∈ regs, r.destinations.length ≠ 1 →
      ∃ insts, instantiateMultipleDataclasses r.fields ns0 r.destinations.length = .ok insts ∧
        insts.length = r.destinations.length ∧
        ∀ j, j < r.destinations.length →
          nsGet ns' (r.destinations.getD j "") = some (insts.getD j PyVal.noneV)) := by
  induction regs with
  | nil =>
    intro ns ns' _ _ _ hok
    constructor
    · intro r hr
      simp at hr
    · intro r hr
      simp at hr
  | cons r0 rest ih =>
    intro ns ns' hagree hdisj hnd hok
    rw [allDests_cons] at hnd
    obtain ⟨hndL, hndR, hdisjD⟩ := List.nodup_append.mp hnd
    have hfields_sub : ∀ f ∈ r0.fields, f.name ∈ allFieldNames (r0 :: rest) := by
      intro f hf
      rw [allFieldNames_cons]
      exact List.mem_append_left _ (List.mem_map_of_mem _ hf)
    have hagree0 : ∀ f ∈ r0.fields, nsGet ns f.name = nsGet ns0 f.name :=
      fun f hf => hagree f.name (hfields_sub f hf)
    have hdisj' : ∀ d ∈ allDests rest, d ∉ allFieldNames rest := by
      intro d hdm hfm
      exact hdisj d (by rw [allDests_cons]; exact List.mem_append_right _ hdm)
        (by rw [allFieldNames_cons]; exact List.mem_append_right _ hfm)
    simp only [bindInstances] at hok
    by_cases hlen : r0.destinations.length = 1
    · rw [if_pos hlen] at hok
      obtain ⟨d0, hd0⟩ := List.length_eq_one.mp hlen
      cases hinst : instantiateDataclass r0.fields ns with
      | error e =>
        rw [hinst] at hok
        exact Except.noConfusion hok
      | ok inst =>
        rw [hinst] at hok
        have hgetd : r0.destinations.getD 0 "" = d0 := by rw [hd0]; rfl
        have hd0memL : d0 ∈ r0.destinations := by
          rw [hd0]; exact List.mem_cons_self _ _
        have hd0mem : d0 ∈ allDests (r0 :: rest) := by
          rw [allDests_cons]; exact List.mem_append_left _ hd0memL
        have hagree1 : ∀ fn ∈ allFieldNames rest,
            nsGet (nsSet ns (r0.destinations.getD 0 "") inst) fn = nsGet ns0 fn := by
          intro fn hfn
          have hfn' : fn ∈ allFieldNames (r0 :: rest) := by
            rw [allFieldNames_cons]; exact List.mem_append_right _ hfn
          have hne : fn ≠ d0 := fun hh => (hdisj d0 hd0mem) (hh ▸ hfn')
          rw [nsGet_nsSet, hgetd, if_neg hne]
          exact hagree fn hfn'
        obtain ⟨ihS, ihM⟩ := ih (nsSet ns (r0.destinations.getD 0 "") inst) ns'
          hagree1 hdisj' hndR hok
        constructor
        · intro r hr d hd
          rcases List.mem_cons.mp hr with hr0 | hrm
          · subst hr0
            have hdd : d = d0 := by
              rw [hd] at hd0
              exact (List.cons.injEq d [] d0 []).mp hd0 |>.1
            have hinst0 : instantiateDataclass r.fields ns0 = .ok inst := by
              rw [← instantiateDataclass_congr r.fields ns ns0 hagree0]
              exact hinst
            refine ⟨inst, hinst0, ?_⟩
            have hdnotrest : d ∉ allDests rest := fun hmem =>
              hdisjD (hdd ▸ hd0memL) hmem
            rw [bindInstances_frame rest _ ns' hok d hdnotrest, nsGet_nsSet, hgetd,
              if_pos hdd]
          · exact ihS r hrm d hd
        · intro r hr hlenne
          rcases List.mem_cons.mp hr with hr0 | hrm
          · subst hr0
            exact absurd hlen hlenne
          · exact ihM r hrm hlenne
    · rw [if_neg hlen] at hok
      cases hinsts : instantiateMultipleDataclasses r0.fields ns r0.destinations.length with
      | error e =>
        rw [hinsts] at hok
        exact Except.noConfusion hok
      | ok insts =>
        rw [hinsts] at hok
        have hagree1 : ∀ fn ∈ allFieldNames rest,
            nsGet (bindZip ns insts r0.destinations) fn = nsGet ns0 fn := by
          intro fn hfn
          have hfn' : fn ∈ allFieldNames (r0 :: rest) := by
            rw [allFieldNames_cons]; exact List.mem_append_right _ hfn
          have hnotd : fn ∉ r0.destinations := by
            intro hmem
            exact hdisj fn (by rw [allDests_cons]; exact List.mem_append_left _ hmem) hfn'
          rw [nsGet_bindZip_not_mem ns insts r0.destinations fn hnotd]
          exact hagree fn hfn'
        obtain ⟨ihS, ihM⟩ := ih (bindZip ns insts r0.destinations) ns' hagree1 hdisj' hndR hok
        constructor
        · intro r hr d hd
          rcases List.mem_cons.mp hr with hr0 | hrm
          · subst hr0
            rw [hd] at hlen
            simp at hlen
          · exact ihS r hrm d hd
        · intro r hr hlenne
          rcases List.mem_cons.mp hr with hr0 | hrm
          · subst hr0
            have hinsts0 : instantiateMultipleDataclasses r.fields ns0 r.destinations.length =
                .ok insts := by
              rw [← instantiateMultiple_congr r.fields ns ns0 _ hagree0]
              exact hinsts
            have hlength : insts.length = r.destinations.length :=
              instantiateMultiple_length r.fields ns r.destinations.length insts hinsts
            refine ⟨insts, hinsts0, hlength, ?_⟩
            intro j hj
            have hmemj : r.destinations.getD j "" ∈ r.destinations := by
              rw [List.getD_eq_getElem r.destinations "" hj]
              exact List.getElem_mem hj
            have hnotrest : r.destinations.getD j "" ∉ allDests rest := fun hmem =>
              hdisjD hmemj hmem
            rw [bindInstances_frame rest _ ns' hok _ hnotrest]
            exact nsGet_bindZip_getD ns insts r.destinations hndL hlength j hj
          · exact ihM r hrm hlenne

/-- The registration used to refute claim C10: a dataclass with a single
scalar field `x`, requested at destination `"x"` — the destination
coincides with the field's own flat name. -/
def overlapRegs : List Registration :=
  [{ fields := singlePField "x", destinations := ["x"] }]

/-- The engine namespace used to refute claim C10: the flat parsed value
of field `x` is the integer 5. -/
def overlapNS : NS := [("x", PyVal.intV 5)]

/-- Claim C10 counterexample: binding the constructed instance at
destination `"x"` overwrites the flat parsed value of the field `x`,
so after a successful parse the namespace does *not* simultaneously
contain the raw parsed value under the field's name — it now holds the
instance there (parsing.py:204-205 `setattr` on the same attribute). -/
theorem parse_args_namespace_counterexample :
    bindInstances overlapRegs overlapNS = .ok [("x", PyVal.objV [("x", PyVal.intV 5)])] ∧
    nsGet overlapNS "x" = some (PyVal.intV 5) ∧
    nsGet [("x", PyVal.objV [("x", PyVal.intV 5)])] "x" =
      some (PyVal.objV [("x", PyVal.intV 5)]) ∧
    PyVal.objV [("x", PyVal.intV 5)] ≠ PyVal.intV 5 :=
  ⟨rfl, rfl, rfl, fun h => PyVal.noConfusion h⟩

/-- Claim C10 as amended: provided no destination coincides with any flat
field name (and destinations are pairwise distinct), a successful
binding phase (parsing.py:202-211) leaves every non-destination
attribute of the engine's parsed namespace unchanged — in particular
every field's raw parsed value stays readable under the field's own
name — while each destination holds the instance(s) reconstructed from
the engine namespace (one instance for a single destination,
positionally bound instances for several). -/
theorem parse_args_namespace (regs : List Registration) (ns0 ns' : NS)
    (hdisj : ∀ d ∈ allDests regs, d ∉ allFieldNames regs)
    (hnd : (allDests regs).Nodup)
    (hok : bindInstances regs ns0 = .ok ns') :
    (∀ k, k ∉ allDests regs → nsGet ns' k = nsGet ns0 k) ∧
    (∀ fn ∈ allFieldNames regs, nsGet ns' fn = nsGet ns0 fn) ∧
    (∀ r ∈ regs, ∀ d, r.destinations = [d] →
      ∃ inst, instantiateDataclass r.fields ns0 = .ok inst ∧ nsGet ns' d = some inst) ∧
    (∀ r ∈ regs, r.destinations.length ≠ 1 →
      ∃ insts, instantiateMultipleDataclasses r.fields ns0 r.destinations.length = .ok insts ∧
        insts.length = r.destinations.length ∧
        ∀ j, j < r.destinations.length →
          nsGet ns' (r.destinations.getD j "") = some (insts.getD j PyVal.noneV)) := by
  have hframe : ∀ k, k ∉ allDests regs → nsGet ns' k = nsGet ns0 k :=
    fun k hk => bindInstances_frame regs ns0 ns' hok k hk
  have hfields : ∀ fn ∈ allFieldNames regs, nsGet ns' fn = nsGet ns0 fn := by
    intro fn hfn
    refine hframe fn (fun hmem => ?_)
    exact hdisj fn hmem hfn
  obtain ⟨hS, hM⟩ := bindInstances_spec regs ns0 ns0 ns' (fun _ _ => rfl) hdisj hnd hok
  exact ⟨hframe, hfields, hS, hM⟩

/-- The concrete registration for the C10 witness: the `Hparams`-style
scenario, one scalar field `rate` requested at destination `hp`. -/
def hpRegs : List Registration :=
  [{ fields := singlePField "rate", destinations := ["hp"] }]

/-- The engine namespace for the C10 witness. -/
def hpNS : NS := [("rate", PyVal.intV 1)]

/-- Witness for the amended C10: flat value `rate` survives, `hp` holds
the instance. -/
theorem parse_args_namespace_witness :
    (∀ k, k ∉ allDests hpRegs →
      nsGet [("rate", PyVal.intV 1), ("hp", PyVal.objV [("rate", PyVal.intV 1)])] k =
        nsGet hpNS k) ∧
    (∀ fn ∈ allFieldNames hpRegs,
      nsGet [("rate", PyVal.intV 1), ("hp", PyVal.objV [("rate", PyVal.intV 1)])] fn =
        nsGet hpNS fn) ∧
    (∀ r ∈ hpRegs, ∀ d, r.destinations = [d] →
      ∃ inst, instantiateDataclass r.fields hpNS = .ok inst ∧
        nsGet [("rate", PyVal.intV 1), ("hp", PyVal.objV [("rate", PyVal.intV 1)])] d =
          some inst) ∧
    (∀ r ∈ hpRegs, r.destinations.length ≠ 1 →
      ∃ insts, instantiateMultipleDataclasses r.fields hpNS r.destinations.length = .ok insts ∧
        insts.length = r.destinations.length ∧
        ∀ j, j < r.destinations.length →
          nsGet [("rate", PyVal.intV 1), ("hp", PyVal.objV [("rate", PyVal.intV 1)])]
              (r.destinations.getD j "") =
            some (insts.getD j PyVal.noneV)) :=
  parse_args_namespace hpRegs hpNS
    [("rate", PyVal.intV 1), ("hp", PyVal.objV [("rate", PyVal.intV 1)])]
    (by decide) (by decide) rfl

/-- A dict lookup succeeds exactly for the dict's keys. -/
theorem lookupKV_isSome_iff (kvs : List (String × PyVal)) (k : String) :
    ((lookupKV kvs k).isSome = true) ↔ k ∈ kvs.map Prod.fst := by
  induction kvs with
  | nil => simp [lookupKV]
  | cons p rest ih =>
    obtain ⟨k0, v0⟩ := p
    by_cases h : k0 = k
    · subst h
      simp [lookupKV]
    · have hf : (k0 == k) = false := beq_eq_false_iff_ne.mpr h
      simp [lookupKV, hf, ih, Ne.symm h]

/-- Membership is preserved by sorted insertion. -/
theorem mem_insertStr (x y : String) (l : List String) :
    x ∈ insertStr y l ↔ x = y ∨ x ∈ l := by
  induction l with
  | nil => simp [insertStr]
  | cons z zs ih =>
    simp only [insertStr]
    split
    · simp
    · simp only [List.mem_cons, ih]
      tauto

/-- `sorted(...)` preserves membership. -/
theorem mem_sortStrings (x : String) (l : List String) :
    x ∈ sortStrings l ↔ x ∈ l := by
  induction l with
  | nil => simp [sortStrings]
  | cons y ys ih => simp [sortStrings, mem_insertStr, ih]

/-- What the field-wrapper loop of `set_default` does to the field
wrappers: store the mapping's value as the default of every matching
wrapper. -/
def updateFieldsWith (kvs : List (String × PyVal)) (fs : List FieldW) : List FieldW :=
  fs.map (fun fw =>
    match lookupKV kvs fw.name with
    | some v => { fw with default := some v }
    | Option.none => fw)

/-- Specification of the field-wrapper loop of `set_default`
(dataclass_wrapper.py:299-305): it succeeds, stores matching values,
and removes the consumed keys from the unknown set. -/
theorem setFieldDefaults_spec (fs : List FieldW) (kvs : List (String × PyVal)) :
    ∀ (u : List String), (fs.map FieldW.name).Nodup → u.Nodup →
    (∀ fw ∈ fs, (lookupKV kvs fw.name).isSome = true → fw.name ∈ u) →
    ∃ u', setFieldDefaults fs kvs u = .ok (updateFieldsWith kvs fs, u') ∧ u'.Nodup ∧
      (∀ x, x ∈ u' ↔ x ∈ u ∧
        ¬(x ∈ fs.map FieldW.name ∧ (lookupKV kvs x).isSome = true)) := by
  induction fs with
  | nil =>
    intro u _ hu _
    exact ⟨u, rfl, hu, by simp⟩
  | cons fw rest ih =>
    intro u hnd hu hmem
    have hnd' : (fw.name :: rest.map FieldW.name).Nodup := by simpa using hnd
    have hfwnotin : fw.name ∉ rest.map FieldW.name := (List.nodup_cons.mp hnd').1
    have hndr : (rest.map FieldW.name).Nodup := (List.nodup_cons.mp hnd').2
    cases hlook : lookupKV kvs fw.name with
    | none =>
      obtain ⟨u', e1, e2, e3⟩ := ih u hndr hu
        (fun g hg hs => hmem g (List.mem_cons_of_mem fw hg) hs)
      refine ⟨u', ?_, e2, ?_⟩
      · simp only [setFieldDefaults, hlook, e1, pbind_ok]
        simp [updateFieldsWith, hlook]
      · intro x
        rw [e3 x]
        by_cases hx : x = fw.name
        · subst hx
          simp [hlook]
        · simp [hx]
    | some v =>
      have hin : fw.name ∈ u := hmem fw (List.mem_cons_self fw rest) (by rw [hlook]; rfl)
      obtain ⟨u', e1, e2, e3⟩ := ih (u.erase fw.name) hndr (hu.erase _)
        (fun g hg hs => by
          have hgu : g.name ∈ u := hmem g (List.mem_cons_of_mem fw hg) hs
          have hgm : g.name ∈ rest.map FieldW.name := List.mem_map_of_mem _ hg
          have hgne : g.name ≠ fw.name := fun hh => hfwnotin (hh ▸ hgm)
          exact (List.Nodup.mem_erase_iff hu).mpr ⟨hgne, hgu⟩)
      refine ⟨u', ?_, e2, ?_⟩
      · simp only [setFieldDefaults, hlook, setRemove, if_pos hin, pbind_ok, e1]
        simp [updateFieldsWith, hlook]
      · intro x
        rw [e3 x, List.Nodup.mem_erase_iff hu]
        by_cases hx : x = fw.name
        · subst hx
          simp [hlook]
        · simp [hx]

/-- How `set_default` relates an original child wrapper to the resulting
one: a child whose name is a key of the mapping had `set_default`
called on it recursively with that key's value; any other child is
untouched. -/
def ChildMergeRel (fuel : Nat) (kvs : List (String × PyVal)) (c c' : DcWrapper) : Prop :=
  match lookupKV kvs c.name with
  | some v => setDefaultDW fuel c v = .ok c'
  | Option.none => c' = c

/-- Specification of the child-wrapper loop of `set_default`
(dataclass_wrapper.py:306-311): if every matching child's own
`set_default` succeeds, the loop succeeds, propagates the matching
values down, and removes the consumed keys from the unknown set. -/
theorem setChildDefaults_spec (fuel : Nat) (kvs : List (String × PyVal)) :
    ∀ (cs : List DcWrapper) (u : List String),
    (cs.map DcWrapper.name).Nodup → u.Nodup →
    (∀ c ∈ cs, (lookupKV kvs c.name).isSome = true → c.name ∈ u) →
    (∀ c ∈ cs, ∀ v, lookupKV kvs c.name = some v → ∃ c', setDefaultDW fuel c v = .ok c') →
    ∃ cs' u', setChildDefaults (setDefaultDW fuel) cs kvs u = .ok (cs', u') ∧
      List.Forall₂ (ChildMergeRel fuel kvs) cs cs' ∧ u'.Nodup ∧
      (∀ x, x ∈ u' ↔ x ∈ u ∧
        ¬(x ∈ cs.map DcWrapper.name ∧ (lookupKV kvs x).isSome = true)) := by
  intro cs
  induction cs with
  | nil =>
    intro u _ hu _ _
    exact ⟨[], u, rfl, List.Forall₂.nil, hu, by simp⟩
  | cons c rest ih =>
    intro u hnd hu hmem hchild
    have hnd' : (c.name :: rest.map DcWrapper.name).Nodup := by simpa using hnd
    have hcnotin : c.name ∉ rest.map DcWrapper.name := (List.nodup_cons.mp hnd').1
    have hndr : (rest.map DcWrapper.name).Nodup := (List.nodup_cons.mp hnd').2
    cases hlook : lookupKV kvs c.name with
    | none =>
      obtain ⟨cs', u', e1, erel, e2, e3⟩ := ih u hndr hu
        (fun g hg hs => hmem g (List.mem_cons_of_mem c hg) hs)
        (fun g hg v hv => hchild g (List.mem_cons_of_mem c hg) v hv)
      refine ⟨c :: cs', u', ?_, ?_, e2, ?_⟩
      · simp only [setChildDefaults, hlook, e1, pbind_ok]
      · refine List.Forall₂.cons ?_ erel
        simp [ChildMergeRel, hlook]
      · intro x
        rw [e3 x]
        by_cases hx : x = c.name
        · subst hx
          simp [hlook]
        · simp [hx]
    | some v =>
      have hin : c.name ∈ u := hmem c (List.mem_cons_self c rest) (by rw [hlook]; rfl)
      obtain ⟨c', hc'⟩ := hchild c (List.mem_cons_self c rest) v hlook
      obtain ⟨cs', u', e1, erel, e2, e3⟩ := ih (u.erase c.name) hndr (hu.erase _)
        (fun g hg hs => by
          have hgu : g.name ∈ u := hmem g (List.mem_cons_of_mem c hg) hs
          have hgm : g.name ∈ rest.map DcWrapper.name := List.mem_map_of_mem _ hg
          have hgne : g.name ≠ c.name := fun hh => hcnotin (hh ▸ hgm)
          exact (List.Nodup.mem_erase_iff hu).mpr ⟨hgne, hgu⟩)
        (fun g hg v' hv => hchild g (List.mem_cons_of_mem c hg) v' hv)
      refine ⟨c' :: cs', u', ?_, ?_, e2, ?_⟩
      · simp only [setChildDefaults, hlook, hc', setRemove, if_pos hin, pbind_ok, e1]
      · refine List.Forall₂.cons ?_ erel
        simp [ChildMergeRel, hlook, hc']
      · intro x
        rw [e3 x, List.Nodup.mem_erase_iff hu]
        by_cases hx : x = c.name
        · subst hx
          simp [hlook]
        · simp [hx]

/-- Full characterization of `set_default` on a mapping
(dataclass_wrapper.py:289-314): matching keys are propagated into the
field / child wrappers (one level, children recursively via
`ChildMergeRel`), and the run ends with `RuntimeError` carrying the
sorted unknown names exactly when a key matches neither a field nor a
child nor the exempt `"_type_"`. -/
theorem setDefaultDW_dict_spec (fuel : Nat) (nm : String) (fs : List FieldW)
    (cs : List DcWrapper) (kvs : List (String × PyVal))
    (hnames : (fs.map FieldW.name ++ cs.map DcWrapper.name).Nodup)
    (hchild : ∀ c ∈ cs, ∀ v, lookupKV kvs c.name = some v →
      ∃ c', setDefaultDW fuel c v = .ok c') :
    ∃ cs' u3, List.Forall₂ (ChildMergeRel fuel kvs) cs cs' ∧ u3.Nodup ∧
      (∀ x, x ∈ u3 ↔ x ∈ kvs.map Prod.fst ∧ x ∉ fs.map FieldW.name ∧
        x ∉ cs.map DcWrapper.name ∧ x ≠ "_type_") ∧
      setDefaultDW (fuel + 1) (.mk nm fs cs) (PyVal.dictV kvs) =
        (if u3.isEmpty then .ok (.mk nm (updateFieldsWith kvs fs) cs')
         else .error (.runtimeUnknown (sortStrings u3) nm)) := by
  obtain ⟨hndF, hndC, hdisjFC⟩ := List.nodup_append.mp hnames
  have hnd0 : ((kvs.map Prod.fst).dedup).Nodup := List.nodup_dedup _
  have hmemF : ∀ fw ∈ fs, (lookupKV kvs fw.name).isSome = true →
      fw.name ∈ (kvs.map Prod.fst).dedup :=
    fun fw _ hs => List.mem_dedup.mpr ((lookupKV_isSome_iff kvs fw.name).mp hs)
  obtain ⟨u1, hF, hu1nd, hu1mem⟩ := setFieldDefaults_spec fs kvs
    ((kvs.map Prod.fst).dedup) hndF hnd0 hmemF
  have hmemC : ∀ c ∈ cs, (lookupKV kvs c.name).isSome = true → c.name ∈ u1 := by
    intro c hc hs
    have hk : c.name ∈ (kvs.map Prod.fst).dedup :=
      List.mem_dedup.mpr ((lookupKV_isSome_iff kvs c.name).mp hs)
    have hnotf : c.name ∉ fs.map FieldW.name := by
      intro hmem
      exact hdisjFC hmem (List.mem_map_of_mem _ hc)
    exact (hu1mem c.name).mpr ⟨hk, fun hh => hnotf hh.1⟩
  obtain ⟨cs', u2, hC, hrel, hu2nd, hu2mem⟩ := setChildDefaults_spec fuel kvs cs u1
    hndC hu1nd hmemC hchild
  refine ⟨cs', u2.erase "_type_", hrel, hu2nd.erase _, ?_, ?_⟩
  · intro x
    constructor
    · intro hx
      obtain ⟨hne, hx2⟩ := (List.Nodup.mem_erase_iff hu2nd).mp hx
      obtain ⟨hx1, hnc⟩ := (hu2mem x).mp hx2
      obtain ⟨hx0, hnf⟩ := (hu1mem x).mp hx1
      have hkeys : x ∈ kvs.map Prod.fst := List.mem_dedup.mp hx0
      have hks : (lookupKV kvs x).isSome = true := (lookupKV_isSome_iff kvs x).mpr hkeys
      exact ⟨hkeys, fun hf => hnf ⟨hf, hks⟩, fun hc => hnc ⟨hc, hks⟩, hne⟩
    · rintro ⟨hkeys, hnf, hnc, hne⟩
      refine (List.Nodup.mem_erase_iff hu2nd).mpr ⟨hne, ?_⟩
      refine (hu2mem x).mpr ⟨?_, fun hh => hnc hh.1⟩
      exact (hu1mem x).mpr ⟨List.mem_dedup.mpr hkeys, fun hh => hnf hh.1⟩
  · simp only [setDefaultDW, hF, hC, pbind_ok]

/-- Claim C4 (confirmed): excess-key detection and propagation of
`DataclassWrapper.set_default` (dataclass_wrapper.py:289-314).  Calling
`set_default` with a mapping containing a key `k` that matches neither
a field wrapper nor a child wrapper (nor the exempt `"_type_"`) raises
`RuntimeError` whose sorted unknown-name payload contains `k`; while
with a mapping whose keys all match, the call succeeds, every matching
field wrapper's default becomes the mapped value, and every matching
child wrapper gets `set_default` applied recursively with its value. -/
theorem set_default_excess_keys
    (fuel : Nat) (nm : String) (fs : List FieldW) (cs : List DcWrapper)
    (kvs1 kvs2 : List (String × PyVal)) (k : String)
    (hnames : (fs.map FieldW.name ++ cs.map DcWrapper.name).Nodup)
    (hk1 : k ∈ kvs1.map Prod.fst)
    (hk2 : k ∉ fs.map FieldW.name ++ cs.map DcWrapper.name)
    (hk3 : k ≠ "_type_")
    (hchild1 : ∀ c ∈ cs, ∀ v, lookupKV kvs1 c.name = some v →
      ∃ c', setDefaultDW fuel c v = .ok c')
    (hall2 : ∀ key ∈ kvs2.map Prod.fst,
      key ∈ fs.map FieldW.name ++ cs.map DcWrapper.name ∨ key = "_type_")
    (hchild2 : ∀ c ∈ cs, ∀ v, lookupKV kvs2 c.name = some v →
      ∃ c', setDefaultDW fuel c v = .ok c') :
    (∃ sorted, setDefaultDW (fuel + 1) (.mk nm fs cs) (PyVal.dictV kvs1) =
        .error (.runtimeUnknown sorted nm) ∧ k ∈ sorted) ∧
    (∃ cs', setDefaultDW (fuel + 1) (.mk nm fs cs) (PyVal.dictV kvs2) =
        .ok (.mk nm (updateFieldsWith kvs2 fs) cs') ∧
      List.Forall₂ (ChildMergeRel fuel kvs2) cs cs') := by
  constructor
  · obtain ⟨cs', u3, _, _, hmem3, heq⟩ := setDefaultDW_dict_spec fuel nm fs cs kvs1
      hnames hchild1
    have hkf : k ∉ fs.map FieldW.name := fun hh => hk2 (List.mem_append_left _ hh)
    have hkc : k ∉ cs.map DcWrapper.name := fun hh => hk2 (List.mem_append_right _ hh)
    have hkin : k ∈ u3 := (hmem3 k).mpr ⟨hk1, hkf, hkc, hk3⟩
    have hcond : ¬(u3.isEmpty = true) := by
      intro hh
      rw [List.isEmpty_iff] at hh
      rw [hh] at hkin
      simp at hkin
    rw [if_neg hcond] at heq
    exact ⟨sortStrings u3, heq, (mem_sortStrings k u3).mpr hkin⟩
  · obtain ⟨cs', u3, hrel, _, hmem3, heq⟩ := setDefaultDW_dict_spec fuel nm fs cs kvs2
      hnames hchild2
    have hempty : u3 = [] := by
      rw [List.eq_nil_iff_forall_not_mem]
      intro x hx
      obtain ⟨hkeys, hnf, hnc, hne⟩ := (hmem3 x).mp hx
      rcases hall2 x hkeys with hmem | htyp
      · rcases List.mem_append.mp hmem with hf | hc
        · exact hnf hf
        · exact hnc hc
      · exact hne htyp
    rw [hempty] at heq
    simp only [List.isEmpty_nil, if_true] at heq
    exact ⟨cs', heq, hrel⟩

/-- Claim C9 (confirmed): `"_type_"` exemption of excess-key detection
(dataclass_wrapper.py:312, `unknown_names.discard("_type_")`): a
mapping whose keys all match fields or children except for one extra
`"_type_"` key does not raise — the `"_type_"` entry is silently
discarded (it matches no wrapper, so nothing is updated for it and it
is removed from the unknown set before the excess-key check). -/
theorem set_default_type_key_exempt
    (fuel : Nat) (nm : String) (fs : List FieldW) (cs : List DcWrapper)
    (kvs : List (String × PyVal))
    (hnames : (fs.map FieldW.name ++ cs.map DcWrapper.name).Nodup)
    (hall : ∀ key ∈ kvs.map Prod.fst,
      key ∈ fs.map FieldW.name ++ cs.map DcWrapper.name ∨ key = "_type_")
    (htype : "_type_" ∈ kvs.map Prod.fst)
    (hnotw : "_type_" ∉ fs.map FieldW.name ++ cs.map DcWrapper.name)
    (hchild : ∀ c ∈ cs, ∀ v, lookupKV kvs c.name = some v →
      ∃ c', setDefaultDW fuel c v = .ok c') :
    ∃ cs', setDefaultDW (fuel + 1) (.mk nm fs cs) (PyVal.dictV kvs) =
        .ok (.mk nm (updateFieldsWith kvs fs) cs') ∧
      List.Forall₂ (ChildMergeRel fuel kvs) cs cs' := by
  obtain ⟨cs', u3, hrel, _, hmem3, heq⟩ := setDefaultDW_dict_spec fuel nm fs cs kvs
    hnames hchild
  have hempty : u3 = [] := by
    rw [List.eq_nil_iff_forall_not_mem]
    intro x hx
    obtain ⟨hkeys, hnf, hnc, hne⟩ := (hmem3 x).mp hx
    rcases hall x hkeys with hmem | htyp
    · rcases List.mem_append.mp hmem with hf | hc
      · exact hnf hf
      · exact hnc hc
    · exact hne htyp
  rw [hempty] at heq
  simp only [List.isEmpty_nil, if_true] at heq
  exact ⟨cs', heq, hrel⟩

/-- The field wrappers of the witness record type for the `set_default`
claims: one field `a`. -/
def cfgFields : List FieldW := [{ name := "a" }]

/-- The child wrapper of the witness record type: a nested record `b`
with one field `c`. -/
def cfgChild : DcWrapper := DcWrapper.mk "b" [{ name := "c" }] []

/-- The children of the witness record type. -/
def cfgChildren : List DcWrapper := [cfgChild]

/-- A mapping with an excess key `zzz` for the C4 witness. -/
def cfgKvs1 : List (String × PyVal) := [("a", PyVal.intV 1), ("zzz", PyVal.intV 2)]

/-- A mapping covering the field `a`, the child `b` and the exempt
`_type_` key, for the C4 witness. -/
def cfgKvs2 : List (String × PyVal) :=
  [("a", PyVal.intV 1), ("b", PyVal.dictV [("c", PyVal.intV 3)]), ("_type_", PyVal.strV "T")]

/-- Witness for C4 at the concrete wrapper and mappings. -/
theorem set_default_excess_keys_witness :
    (∃ sorted, setDefaultDW 2 (.mk "Config" cfgFields cfgChildren) (PyVal.dictV cfgKvs1) =
        .error (.runtimeUnknown sorted "Config") ∧ "zzz" ∈ sorted) ∧
    (∃ cs', setDefaultDW 2 (.mk "Config" cfgFields cfgChildren) (PyVal.dictV cfgKvs2) =
        .ok (.mk "Config" (updateFieldsWith cfgKvs2 cfgFields) cs') ∧
      List.Forall₂ (ChildMergeRel 1 cfgKvs2) cfgChildren cs') := by
  refine set_default_excess_keys 1 "Config" cfgFields cfgChildren cfgKvs1 cfgKvs2 "zzz"
    (by decide) (by decide) (by decide) (by decide) ?_ (by decide) ?_
  · intro c hc v hv
    rw [show cfgChildren = [cfgChild] from rfl, List.mem_singleton] at hc
    subst hc
    have hcomp : lookupKV cfgKvs1 cfgChild.name = Option.none := rfl
    rw [hcomp] at hv
    exact Option.noConfusion hv
  · intro c hc v hv
    rw [show cfgChildren = [cfgChild] from rfl, List.mem_singleton] at hc
    subst hc
    have hcomp : lookupKV cfgKvs2 cfgChild.name =
        some (PyVal.dictV [("c", PyVal.intV 3)]) := rfl
    rw [hcomp] at hv
    have hvv : v = PyVal.dictV [("c", PyVal.intV 3)] := (Option.some.inj hv).symm
    subst hvv
    exact ⟨DcWrapper.mk "b" [{ name := "c", default := some (PyVal.intV 3) }] [], rfl⟩

/-- The mapping for the C9 witness: field `a`, child `b`, and the exempt
extra `_type_` key. -/
def cfgKvs3 : List (String × PyVal) :=
  [("a", PyVal.intV 7), ("b", PyVal.dictV [("c", PyVal.intV 8)]), ("_type_", PyVal.strV "X")]

/-- Witness for C9 at the concrete wrapper and mapping. -/
theorem set_default_type_key_exempt_witness :
    ∃ cs', setDefaultDW 2 (.mk "Config" cfgFields cfgChildren) (PyVal.dictV cfgKvs3) =
        .ok (.mk "Config" (updateFieldsWith cfgKvs3 cfgFields) cs') ∧
      List.Forall₂ (ChildMergeRel 1 cfgKvs3) cfgChildren cs' := by
  refine set_default_type_key_exempt 1 "Config" cfgFields cfgChildren cfgKvs3
    (by decide) (by decide) (by decide) (by decide) ?_
  intro c hc v hv
  rw [show cfgChildren = [cfgChild] from rfl, List.mem_singleton] at hc
  subst hc
  have hcomp : lookupKV cfgKvs3 cfgChild.name =
      some (PyVal.dictV [("c", PyVal.intV 8)]) := rfl
  rw [hcomp] at hv
  have hvv : v = PyVal.dictV [("c", PyVal.intV 8)] := (Option.some.inj hv).symm
  subst hvv
  exact ⟨DcWrapper.mk "b" [{ name := "c", default := some (PyVal.intV 8) }] [], rfl⟩

/-- The value the `destinations` property yields for a root wrapper:
the cache when already computed, else `[self.name]`. -/
def rootDestsVal (c : MWCore) : List String :=
  if c.destsCache.isEmpty then [c.name] else c.destsCache

/-- The core after a root wrapper's `destinations` property read (the
computed list is cached). -/
def rootDestsCore (c : MWCore) : MWCore :=
  { c with destsCache := rootDestsVal c }

/-- Reading `destsCache` of the post-read core. -/
theorem rootDestsCore_destsCache (c : MWCore) :
    (rootDestsCore c).destsCache = rootDestsVal c := rfl

/-- The `destinations` property at a root wrapper caches and returns
`rootDestsVal`. -/
theorem destsPropertyRead_root (c : MWCore) :
    destsPropertyRead Option.none c = (rootDestsVal c, rootDestsCore c) := by
  unfold destsPropertyRead rootDestsCore rootDestsVal
  cases h : c.destsCache.isEmpty with
  | true =>
    have h0 : c.destsCache = [] := List.isEmpty_iff.mp h
    simp [h, h0]
  | false => simp [h]

/-- The `defaults` property of a root wrapper returns the stored
attribute itself (an empty attribute means the fresh-empty-list branch,
whose value is also `[]`) and leaves the core unchanged. -/
theorem defaultsPropertyRead_root (c : MWCore) (hc : c.hasField = false) :
    defaultsPropertyRead Option.none c = .ok (c.defaultsAttr, c) := by
  unfold defaultsPropertyRead
  rw [hc]
  cases hattr : c.defaultsAttr.isEmpty with
  | true =>
    have h0 : c.defaultsAttr = [] := List.isEmpty_iff.mp hattr
    simp [hattr, h0]
  | false => simp [hattr]

/-- An arbitrary wrapper, used as the default of positional lookups. -/
def dummyMW : MW := MW.mk { name := "" } []

/-- The child-merge loop preserves the length of self's child list:
pairs are merged and self's surplus children are kept. -/
theorem mergeChildLoop_length (mrg : MW → MW → Except PErr MW) :
    ∀ (cs ocs ms : List MW), mergeChildLoop mrg cs ocs = .ok ms → ms.length = cs.length := by
  intro cs
  induction cs with
  | nil =>
    intro ocs ms h
    cases ocs with
    | nil => cases h; rfl
    | cons oc ocs' => cases h; rfl
  | cons c cs' ih =>
    intro ocs ms h
    cases ocs with
    | nil => cases h; rfl
    | cons oc ocs' =>
      simp only [mergeChildLoop] at h
      cases hm : mrg c oc with
      | error e => rw [hm, pbind_error] at h; exact Except.noConfusion h
      | ok m =>
        rw [hm, pbind_ok] at h
        cases hrec : mergeChildLoop mrg cs' ocs' with
        | error e => rw [hrec, pbind_error] at h; exact Except.noConfusion h
        | ok ms' =>
          rw [hrec, pbind_ok] at h
          cases h
          simp [ih ocs' ms' hrec]

/-- The child-merge loop merges position `i` pairwise while both lists
have an `i`-th element. -/
theorem mergeChildLoop_pair (mrg : MW → MW → Except PErr MW) :
    ∀ (cs ocs ms : List MW), mergeChildLoop mrg cs ocs = .ok ms →
    ∀ i, i < cs.length → i < ocs.length →
    mrg (cs.getD i dummyMW) (ocs.getD i dummyMW) = .ok (ms.getD i dummyMW) := by
  intro cs
  induction cs with
  | nil =>
    intro ocs ms _ i hi _
    simp at hi
  | cons c cs' ih =>
    intro ocs ms h i hi hio
    cases ocs with
    | nil => simp at hio
    | cons oc ocs' =>
      simp only [mergeChildLoop] at h
      cases hm : mrg c oc with
      | error e => rw [hm, pbind_error] at h; exact Except.noConfusion h
      | ok m =>
        rw [hm, pbind_ok] at h
        cases hrec : mergeChildLoop mrg cs' ocs' with
        | error e => rw [hrec, pbind_error] at h; exact Except.noConfusion h
        | ok ms' =>
          rw [hrec, pbind_ok] at h
          cases h
          cases i with
          | zero => simpa using hm
          | succ j =>
            simp only [List.getD_cons_succ]
            exact ih ocs' ms' hrec j (by simpa using hi) (by simpa using hio)

/-- Self's surplus children (beyond the other wrapper's child count) are
left untouched by the child-merge loop. -/
theorem mergeChildLoop_extra (mrg : MW → MW → Except PErr MW) :
    ∀ (cs ocs ms : List MW), mergeChildLoop mrg cs ocs = .ok ms →
    ∀ i, ocs.length ≤ i → ms.getD i dummyMW = cs.getD i dummyMW := by
  intro cs
  induction cs with
  | nil =>
    intro ocs ms h i _
    cases ocs with
    | nil => cases h; rfl
    | cons oc ocs' => cases h; rfl
  | cons c cs' ih =>
    intro ocs ms h i hio
    cases ocs with
    | nil => cases h; rfl
    | cons oc ocs' =>
      simp only [mergeChildLoop] at h
      cases hm : mrg c oc with
      | error e => rw [hm, pbind_error] at h; exact Except.noConfusion h
      | ok m =>
        rw [hm, pbind_ok] at h
        cases hrec : mergeChildLoop mrg cs' ocs' with
        | error e => rw [hrec, pbind_error] at h; exact Except.noConfusion h
        | ok ms' =>
          rw [hrec, pbind_ok] at h
          cases h
          cases i with
          | zero => simp at hio
          | succ j =>
            simp only [List.getD_cons_succ]
            exact ih ocs' ms' hrec j (by simpa using hio)

/-- Reading `name` of the post-read core. -/
theorem rootDestsCore_name (c : MWCore) : (rootDestsCore c).name = c.name := rfl

/-- Reading `defaultsAttr` of the post-read core. -/
theorem rootDestsCore_defaultsAttr (c : MWCore) :
    (rootDestsCore c).defaultsAttr = c.defaultsAttr := rfl

/-- Reading `hasField` of the post-read core. -/
theorem rootDestsCore_hasField (c : MWCore) : (rootDestsCore c).hasField = c.hasField := rfl

/-- Reading `fieldDefaultValue` of the post-read core. -/
theorem rootDestsCore_fieldDefaultValue (c : MWCore) :
    (rootDestsCore c).fieldDefaultValue = c.fieldDefaultValue := rfl

/-- Reading `fieldDefaults` of the post-read core. -/
theorem rootDestsCore_fieldDefaults (c : MWCore) :
    (rootDestsCore c).fieldDefaults = c.fieldDefaults := rfl

/-- The root wrappers used to refute claim C5's defaults clause: `self`
stores no defaults, `other` stores one. -/
def mergeSelfCW : MW := MW.mk { name := "a" } []

/-- The other wrapper of the C5 counterexample, carrying one default. -/
def mergeOtherCW : MW := MW.mk { name := "b", defaultsAttr := [PyVal.intV 1] } []

/-- Claim C5 counterexample: merging a root wrapper whose stored default
list is empty with one that holds a default does *not* leave self's
default list as the concatenation of both lists.  The `defaults`
property (dataclass_wrapper.py:260-261) returns a fresh empty list for
a root wrapper with no stored defaults, so
`self.defaults.extend(other.defaults)` at line 435 mutates a temporary
and the stored list stays empty instead of becoming `[1]`. -/
theorem merge_defaults_counterexample :
    Except.map (fun m => (MW.core m).defaultsAttr)
        (mergeMW 1 Option.none Option.none Option.none Option.none mergeSelfCW mergeOtherCW) =
      .ok [] ∧
    (MW.core mergeSelfCW).defaultsAttr ++ (MW.core mergeOtherCW).defaultsAttr =
      [PyVal.intV 1] ∧
    ([] : List PyVal) ≠ [PyVal.intV 1] :=
  ⟨rfl, rfl, fun h => List.noConfusion h⟩

/-- Claim C5 as amended: after `self.merge(other)` on two root wrappers
(dataclass_wrapper.py:421-443) — self's destination list is the union
of both lists with duplicates from other skipped (order preserved,
self's first); self's default list becomes self's stored defaults
followed by other's defaults *only when self's stored default list is
non-empty* — a root wrapper with an empty stored default list keeps an
empty default list, because the extension mutates the fresh list the
`defaults` property returned; every field wrapper's default is cleared
to `None`; and children are merged pairwise by position, the surplus
children of either side being silently skipped (self keeps its extra
children unmerged, other's extra children are ignored). -/
theorem merge_wrappers (fuel : Nat) (s o m : MW)
    (hs : (MW.core s).hasField = false)
    (ho : (MW.core o).hasField = false)
    (hm : mergeMW (fuel + 1) Option.none Option.none Option.none Option.none s o = .ok m) :
    (MW.core m).destsCache =
      unionDests (rootDestsVal (MW.core s)) (rootDestsVal (MW.core o)) ∧
    (MW.core m).defaultsAttr =
      (if (MW.core s).defaultsAttr.isEmpty then []
       else (MW.core s).defaultsAttr ++ (MW.core o).defaultsAttr) ∧
    (MW.core m).fieldDefaults =
      (MW.core s).fieldDefaults.map (fun fw => { fw with default := Option.none }) ∧
    (MW.children m).length = (MW.children s).length ∧
    (∀ i, i < (MW.children s).length → i < (MW.children o).length →
      mergeMW fuel (some ((MW.core m).destsCache)) (some (rootDestsVal (MW.core o)))
          (some ((MW.core m).defaultsAttr)) (some ((MW.core o).defaultsAttr))
          ((MW.children s).getD i dummyMW) ((MW.children o).getD i dummyMW) =
        .ok ((MW.children m).getD i dummyMW)) ∧
    (∀ i, (MW.children o).length ≤ i →
      (MW.children m).getD i dummyMW = (MW.children s).getD i dummyMW) := by
  cases s with
  | mk sc scs =>
    cases o with
    | mk oc ocs =>
      simp only [MW.core] at hs ho
      simp only [mergeMW, destsPropertyRead_root, defaultsPropertyRead_root, pbind_ok,
        rootDestsCore_name, rootDestsCore_defaultsAttr, rootDestsCore_hasField,
        rootDestsCore_fieldDefaultValue, rootDestsCore_fieldDefaults, hs, ho,
        Bool.not_false, Bool.and_true] at hm
      cases hloop : mergeChildLoop
          (mergeMW fuel (some (unionDests (rootDestsVal sc) (rootDestsVal oc)))
            (some (rootDestsVal oc))
            (some (if sc.defaultsAttr.isEmpty = true then [] else sc.defaultsAttr ++ oc.defaultsAttr))
            (some oc.defaultsAttr)) scs ocs with
      | error e =>
        rw [hloop, pbind_error] at hm
        exact Except.noConfusion hm
      | ok cs' =>
        rw [hloop, pbind_ok] at hm
        have hmEq := Except.ok.inj hm
        subst hmEq
        refine ⟨rfl, rfl, rfl, ?_, ?_, ?_⟩
        · exact mergeChildLoop_length _ scs ocs cs' hloop
        · intro i hi hio
          exact mergeChildLoop_pair _ scs ocs cs' hloop i hi hio
        · intro i hio
          exact mergeChildLoop_extra _ scs ocs cs' hloop i hio

/-- A nested child wrapper for the C5 witness. -/
def mergeChildS : MW :=
  MW.mk { name := "c", hasField := true, defaultsAttr := [PyVal.intV 9] } []

/-- The self wrapper of the C5 witness: one stored default, one field
wrapper with a default, one child. -/
def mergeS : MW :=
  MW.mk { name := "a", defaultsAttr := [PyVal.intV 5],
          fieldDefaults := [{ name := "lr", default := some (PyVal.intV 3) }] } [mergeChildS]

/-- The other wrapper of the C5 witness: a root with one stored default
and no children. -/
def mergeO : MW := MW.mk { name := "b", defaultsAttr := [PyVal.intV 6] } []

/-- The result of merging the C5 witness wrappers. -/
def mergeMresult : MW :=
  MW.mk { name := "a", destsCache := ["a", "b"],
          defaultsAttr := [PyVal.intV 5, PyVal.intV 6],
          fieldDefaults := [{ name := "lr" }] } [mergeChildS]

/-- Witness for the amended C5 at concrete root wrappers. -/
theorem merge_wrappers_witness :
    (MW.core mergeMresult).destsCache =
      unionDests (rootDestsVal (MW.core mergeS)) (rootDestsVal (MW.core mergeO)) ∧
    (MW.core mergeMresult).defaultsAttr =
      (if (MW.core mergeS).defaultsAttr.isEmpty then []
       else (MW.core mergeS).defaultsAttr ++ (MW.core mergeO).defaultsAttr) ∧
    (MW.core mergeMresult).fieldDefaults =
      (MW.core mergeS).fieldDefaults.map (fun fw => { fw with default := Option.none }) ∧
    (MW.children mergeMresult).length = (MW.children mergeS).length ∧
    (∀ i, i < (MW.children mergeS).length → i < (MW.children mergeO).length →
      mergeMW 1 (some ((MW.core mergeMresult).destsCache))
          (some (rootDestsVal (MW.core mergeO)))
          (some ((MW.core mergeMresult).defaultsAttr))
          (some ((MW.core mergeO).defaultsAttr))
          ((MW.children mergeS).getD i dummyMW) ((MW.children mergeO).getD i dummyMW) =
        .ok ((MW.children mergeMresult).getD i dummyMW)) ∧
    (∀ i, (MW.children mergeO).length ≤ i →
      (MW.children mergeMresult).getD i dummyMW = (MW.children mergeS).getD i dummyMW) :=
  merge_wrappers 1 mergeS mergeO mergeMresult rfl rfl rfl
